import Mathlib

/-!
# Verification of the LapSim point-mass lap-time simulator

Shallow embedding of `src/archive/LapSim_v3.py` (class `LapSim`) over exact
real arithmetic, together with an IEEE-style value type (`FVal`) for the
claims that concern NaN propagation and division by zero.

Conventions of the embedding:
* numpy floats become `ℝ`; where NaN/inf behaviour is the point of a claim,
  a four-constructor IEEE value type `FVal` (finite / +inf / -inf / NaN) is
  used instead, with numpy's propagation rules.
* numpy arrays of length `N` become `Fin N → ℝ` (or `List` where the source
  manipulates variable-length arrays); python wrap-around indexing `a[i-1]`
  and `np.remainder(i, N)` both become reduction modulo `N`.
* external SciPy interpolation routines (`interp1d`, `griddata`) are
  parameters of the embedding (oracles); everything the python source
  computes itself is embedded line by line.
* `self.car` is the `Car` structure below; the engine's fuel-efficiency
  table `eta` enters only through its first row (`eta[0,0]`, `eta[0,1]`,
  the clamping bounds) and through the `griddata` oracle.
-/

set_option maxHeartbeats 1000000
set_option linter.unusedVariables false

noncomputable section

open Classical

namespace LapSim

/-- `self.g = 9.81` (set in `LapSim.__init__`). -/
def g : ℝ := 9.81

/-- The motor attribute bag (`self.car.motor`): peak torque, peak power,
maximum rpm, final-drive ratio and efficiency percentage. -/
structure Motor where
  torque_max : ℝ
  power_max : ℝ
  maxrpm : ℝ
  trans : ℝ
  eta : ℝ

/-- The engine attribute bag (`self.car.engine`): rpm range, transmission
ratio table `trans` (`trans[0]`, `trans[1]` the primary/final ratios,
`trans[2:]` the per-gear ratios), the `power(rpm)` function, and the first
row of the fuel-efficiency table `eta` (its clamping bounds
`eta[0,0]`, `eta[0,1]`). -/
structure Engine where
  minrpm : ℝ
  maxrpm : ℝ
  trans : List ℝ
  power : ℝ → ℝ
  eta00 : ℝ
  eta01 : ℝ

/-- The car attribute bag (`self.car`): mass, friction coefficient, wheel
radius (inches), hybrid flag (compared against `1` and also used as a
factor in `hybrid * power_split`), ICE power split, sub-bags for engine and
motor, and the SciPy `griddata` interpolant over the engine's
fuel-efficiency table (an oracle: the table itself and the scattered-data
interpolation are external to this core). -/
structure Car where
  m : ℝ
  mu : ℝ
  wheel_radius : ℝ
  hybrid : ℝ
  power_split : ℝ
  engine : Engine
  motor : Motor
  etaInterp : ℝ → ℝ → ℝ

/-- `self.car.alim = self.g * self.car.mu`, assigned at the top of
`get_velocity_list` and read by `calc_velocity`. -/
def Car.alim (c : Car) : ℝ := g * c.mu

/-- `v_lim_electric(self, vin, rpm0)` (source lines 413–433).  Returns
`(a_tor, maxrpm)`.  Note the source computes
`torque_EM_at_wheel = self.car.motor.power_max*1.356*self.car.motor.trans`,
i.e. it reads `power_max` where its own variable name and comment
(`# torque-limited acceleration`) — and the parallel hybrid path at line
399 — use the peak torque `torque_max`. -/
def v_lim_electric (c : Car) (vin rpm0 : ℝ) : ℝ × ℝ :=
  -- rpm = rpm0*self.car.motor.trans ; omega = (rpm/60)*(2*np.pi)  (dead values)
  let torque_EM_at_wheel := c.motor.power_max * 1.356 * c.motor.trans
  let a_tor := torque_EM_at_wheel / (c.wheel_radius * 0.0254 * c.m)
  let maxrpm := c.motor.maxrpm / c.motor.trans
  (a_tor, maxrpm)

/-- The per-gear engine rpm list of `v_lim_hybrid`:
`rpm_list = rpm0*self.car.engine.trans[2:]*trans[0]*trans[1]`. -/
def rpmList (c : Car) (rpm0 : ℝ) : List ℝ :=
  (c.engine.trans.drop 2).map
    (fun t => rpm0 * t * c.engine.trans.getD 0 0 * c.engine.trans.getD 1 0)

/-- `v_lim_hybrid(self, vin, gear, rpm0)` (source lines 362–410).  Returns
`(a_tor, maxrpm, gear_new)`.  `np.where` over the boolean mask on
`rpm_list` becomes a filter over the index range; `rpm_idx[0][0]` is its
head. -/
def v_lim_hybrid (c : Car) (vin : ℝ) (gear : ℕ) (rpm0 : ℝ) : ℝ × ℝ × ℕ :=
  let r : ℝ := 0.95
  let rpm_list := rpmList c rpm0
  let sel : ℝ × ℕ × ℝ :=        -- (rpm_at_gear_new, gear_new, p_ICE)
    if gear = 1 ∧ rpm_list.getD 0 0 < c.engine.minrpm then
      (rpm_list.getD 0 0, gear, c.engine.power c.engine.minrpm)
    else
      let rpm_idx := (List.range rpm_list.length).filter
        (fun j => decide (c.engine.maxrpm * r > rpm_list.getD j 0 ∧
                          c.engine.minrpm < rpm_list.getD j 0))
      match rpm_idx.head? with
      | none => (c.engine.maxrpm, gear, c.engine.power c.engine.maxrpm)
      | some j => (rpm_list.getD j 0, j + 1, c.engine.power (rpm_list.getD j 0))
  let rpm_at_gear_new := sel.1
  let gear_new := sel.2.1
  let p_ICE := sel.2.2
  let omega_ICE := rpm_at_gear_new / 60 * (2 * Real.pi)
  let torque_ICE_at_wheel :=
    if omega_ICE ≠ 0 then p_ICE * 745.7 / omega_ICE * c.engine.trans.getD (gear_new + 1) 0
    else 0
  let torque_EM_at_wheel := c.motor.torque_max * 1.356 * c.motor.trans
  let a_tor := (torque_EM_at_wheel + torque_ICE_at_wheel) / (c.wheel_radius * 0.0254 * c.m)
  let wheel_maxrpm_ICE := c.engine.maxrpm /
    (c.engine.trans.getD (gear_new + 1) 0 * c.engine.trans.getD 0 0 * c.engine.trans.getD 1 0)
  let wheel_maxrpm_EM := c.motor.maxrpm / c.motor.trans
  let maxrpm := min wheel_maxrpm_EM wheel_maxrpm_ICE
  (a_tor, maxrpm, gear_new)

/-- `calc_fuel(self, gear, v, Power, t)` (source lines 436–465).  Returns
the ICE energy `e_ICE`; the out-of-range warning is only a console print
and is not part of the returned value.  The SciPy `griddata` lookup is the
`etaInterp` oracle of the car. -/
def calc_fuel (c : Car) (gear : ℕ) (v P t : ℝ) : ℝ :=
  if P = 0 then 0
  else
    let rpm := v / (c.wheel_radius * 0.0254 * 2 * Real.pi) * 60 *
      c.engine.trans.getD (gear + 1) 0 * c.engine.trans.getD 0 0 * c.engine.trans.getD 1 0
    let x0 := rpm / 60 * 2 * Real.pi
    let x := if x0 < c.engine.eta00 then c.engine.eta00 else x0
    let y0 := P / x
    let y := if y0 < c.engine.eta01 then c.engine.eta01 else y0
    let eta := c.etaInterp x y
    P * 100 / eta * t

/-- `calc_velocity(self, vin, ap, gear, roc)` (source lines 304–359), over
exact reals.  Returns `(v, gear_new, (e_ICE, e_EM), t)`.  The four-way
`np.min` becomes iterated `min`; the source's `if v == v_tor / elif ...`
cascade is embedded in the same order (over exact reals `v` always equals
one of the four candidates, so the final fallback arm is unreachable). -/
def calc_velocity (c : Car) (ds vin ap : ℝ) (gear : ℕ) (roc : ℝ) :
    ℝ × ℕ × (ℝ × ℝ) × ℝ :=
  let rpm0 := vin / (c.wheel_radius * 0.0254 * 2 * Real.pi) * 60
  let lim : ℝ × ℝ × ℕ :=
    if c.hybrid = 1 then v_lim_hybrid c vin gear rpm0
    else ((v_lim_electric c vin rpm0).1, (v_lim_electric c vin rpm0).2, 1)
  let a_tor := lim.1
  let maxrpm := lim.2.1
  let gear_new := lim.2.2
  let v_tor := Real.sqrt (2 * a_tor * ds + vin ^ 2)
  let t_tor := (v_tor - vin) / a_tor
  let a_trac := Real.sqrt (c.alim ^ 2 - ap ^ 2)
  let v_trac := Real.sqrt (2 * a_trac * ds + vin ^ 2)
  let t_trac := (v_trac - vin) / a_trac
  let v_trac_l := Real.sqrt (c.alim * roc)
  let a_trac_l := (v_trac_l ^ 2 - vin ^ 2) / (2 * ds)
  let t_trac_l := (v_trac_l - vin) / a_trac_l
  let v_rpm := maxrpm / 60 * (c.wheel_radius * 0.0254 * 2 * Real.pi)
  let a_rpm := (v_rpm ^ 2 - vin ^ 2) / (2 * ds)
  let t_rpm := (v_rpm - vin) / a_rpm
  let v := min (min (min v_trac v_tor) v_rpm) v_trac_l
  let sel : ℝ × ℝ :=                     -- the chosen (t, a) of the winning branch
    if v = v_tor then (t_tor, a_tor)
    else if v = v_trac then (t_trac, a_trac)
    else if v = v_trac_l then (t_trac_l, a_trac_l)
    else if v = v_rpm then (t_rpm, a_rpm)
    else (0, 0)
  let t := sel.1
  let p_ICE := c.m * sel.2 * v * (c.hybrid * c.power_split)
  let p_EM := c.m * sel.2 * v - p_ICE
  let e_ICE := calc_fuel c gear_new v p_ICE t
  let e_EM := p_EM * t / (c.motor.eta / 100)
  (v, gear_new, (e_ICE, e_EM), t)

/-! ## Concrete cars and inputs used by the individual claims -/

/-- A placeholder engine for electric-only cars (the electric code path
never reads the engine except through `calc_fuel`, which it reaches only
with `Power = 0`). -/
def engine0 : Engine :=
  { minrpm := 0, maxrpm := 0, trans := [], power := fun _ => 0, eta00 := 0, eta01 := 0 }

/-- Electric car exhibiting the `v_lim_electric` torque/power slip:
`torque_max = 100` lb-ft but `power_max = 50`. -/
def c5car : Car :=
  { m := 250, mu := 1, wheel_radius := 10, hybrid := 0, power_split := 0,
    engine := engine0,
    motor := { torque_max := 100, power_max := 50, maxrpm := 6000, trans := 2, eta := 90 },
    etaInterp := fun _ _ => 0 }

/-- C5: `v_lim_electric` is specified to return
`motor peak torque at wheel / (wheel radius × mass)` as the usable
acceleration, and a rpm ceiling from `motor.maxrpm` and the final-drive
ratio.  The code instead builds the wheel torque from `motor.power_max`
(line 427), not from the peak torque `motor.torque_max` that its own
variable name, its comment and the parallel hybrid path (line 399) use:
on a car with `torque_max = 100`, `power_max = 50` the returned
acceleration is the `power_max`-based value and differs from the claimed
torque-based value.  The rpm-ceiling half of the claim does hold. -/
theorem c5_power_used_for_torque :
    (v_lim_electric c5car 0 0).1 = 50 * 1.356 * 2 / (10 * 0.0254 * 250) ∧
    (v_lim_electric c5car 0 0).1 ≠
      c5car.motor.torque_max * 1.356 * c5car.motor.trans /
        (c5car.wheel_radius * 0.0254 * c5car.m) ∧
    (v_lim_electric c5car 0 0).2 = c5car.motor.maxrpm / c5car.motor.trans := by
  refine ⟨?_, ?_, ?_⟩ <;> simp only [v_lim_electric, c5car] <;> norm_num

/-! ## C4: gear selection in `v_lim_hybrid` -/

/-- The rpm band actually used by the code at line 382:
`(engine.maxrpm*0.95 > rpm) & (engine.minrpm < rpm)` — open at both ends. -/
def inBand (c : Car) (x : ℝ) : Prop :=
  c.engine.minrpm < x ∧ x < c.engine.maxrpm * 0.95

/-- Modelled from the spec's words, for comparison with the code: the
lowest gear whose resulting engine rpm lies in the half-open band
`[minrpm, 0.95*maxrpm)`. -/
def claimLowestGear (c : Car) (rpm0 : ℝ) : Option ℕ :=
  (((List.range (rpmList c rpm0).length)).filter
    (fun j => decide (c.engine.minrpm ≤ (rpmList c rpm0).getD j 0 ∧
                      (rpmList c rpm0).getD j 0 < c.engine.maxrpm * 0.95))).head?.map (· + 1)

/-- `find?` over `List.range`: characterisation of the first index
satisfying a predicate. -/
theorem find?_range_eq_some_iff {n j : ℕ} {p : ℕ → Bool} :
    (List.range n).find? p = some j ↔ j < n ∧ p j = true ∧ ∀ k < j, ¬ p k = true := by
  induction n generalizing j with
  | zero => simp
  | succ n ih =>
    rw [List.range_succ, List.find?_append]
    rcases h : (List.range n).find? p with _ | j'
    · have hall : ∀ k < n, ¬ p k = true := by
        rw [List.find?_eq_none] at h
        intro k hk
        exact h k (List.mem_range.mpr hk)
      simp only [Option.none_or, List.find?_singleton]
      constructor
      · intro hj
        by_cases hp : p n = true
        · rw [if_pos hp] at hj
          cases hj
          exact ⟨Nat.lt_succ_self _, hp, hall⟩
        · rw [if_neg hp] at hj
          cases hj
      · rintro ⟨hjn, hpj, hmin⟩
        have hjn' : j = n := by
          rcases Nat.lt_succ_iff_lt_or_eq.mp hjn with h' | h'
          · exact absurd hpj (hall j h')
          · exact h'
        subst hjn'
        rw [if_pos hpj]
    · simp only [h, Option.or_some]
      constructor
      · intro hj
        cases hj
        have := ih.mp h
        exact ⟨Nat.lt_succ_of_lt this.1, this.2.1, this.2.2⟩
      · rintro ⟨hjn, hpj, hmin⟩
        have hj' := ih.mp h
        congr 1
        rcases Nat.lt_trichotomy j j' with h' | h' | h'
        · exact absurd hpj (hj'.2.2 j h')
        · exact h'.symm
        · exact absurd hj'.2.1 (hmin j' h')

/-- Hybrid car for the C4 counterexample: `trans = [1, 1, 100, 200]`
(primary/final ratios 1, gear-1 ratio 100, gear-2 ratio 200),
`minrpm = 1000`, `maxrpm = 10000`.  At wheel rpm `rpm0 = 10` the engine
rpm list is `[1000, 2000]`: gear 1 sits exactly at `minrpm`. -/
def c4car : Car :=
  { m := 250, mu := 1, wheel_radius := 10, hybrid := 1, power_split := 0.5,
    engine := { minrpm := 1000, maxrpm := 10000, trans := [1, 1, 100, 200],
                power := fun _ => 80, eta00 := 0, eta01 := 0 },
    motor := { torque_max := 100, power_max := 50, maxrpm := 100000, trans := 1, eta := 90 },
    etaInterp := fun _ _ => 0 }

/-- C4 (counterexample): the claim says the selected gear is the lowest
gear whose engine rpm lies in `[minrpm, 0.95*maxrpm)`.  With current gear
2 and wheel rpm 10, gear 1's engine rpm is exactly `minrpm = 1000`, inside
the claimed half-open band, so the claim selects gear 1 — but the code's
band test at line 382 is strictly open at `minrpm` and the code selects
gear 2. -/
theorem c4_counterexample :
    (v_lim_hybrid c4car 0 2 10).2.2 = 2 ∧ claimLowestGear c4car 10 = some 1 := by
  constructor
  · simp only [v_lim_hybrid, rpmList, c4car]
    norm_num [List.filter, List.range_succ]
  · simp only [claimLowestGear, rpmList, c4car]
    norm_num [List.filter, List.range_succ]

/-- The gear output of `v_lim_hybrid`, isolated: the idle hold, the first
in-band index of the filter, or the hold-at-redline fallback. -/
theorem v_lim_hybrid_gear (c : Car) (vin : ℝ) (gear : ℕ) (rpm0 : ℝ) :
    (v_lim_hybrid c vin gear rpm0).2.2 =
      if gear = 1 ∧ (rpmList c rpm0).getD 0 0 < c.engine.minrpm then gear
      else
        match ((List.range (rpmList c rpm0).length).filter
            (fun j => decide (c.engine.maxrpm * 0.95 > (rpmList c rpm0).getD j 0 ∧
                              c.engine.minrpm < (rpmList c rpm0).getD j 0))).head? with
        | none => gear
        | some j => j + 1 := by
  simp only [v_lim_hybrid]
  split
  · rfl
  · rcases h : ((List.range (rpmList c rpm0).length).filter
        (fun j => decide (c.engine.maxrpm * 0.95 > (rpmList c rpm0).getD j 0 ∧
                          c.engine.minrpm < (rpmList c rpm0).getD j 0))).head? with _ | j <;>
      simp only [h]

/-- C4 (amended): the selection band of `v_lim_hybrid` is open at both
ends, `(minrpm, 0.95*maxrpm)` (source line 382 tests `minrpm < rpm`
strictly).  With that band: the current gear is held when the current gear
is 1 and gear 1's engine rpm is below `minrpm` (idle); otherwise the
selected gear is the lowest gear whose engine rpm lies in the open band;
if no gear's rpm does, the current gear is held (pinned at redline). -/
theorem c4_gear_selection (c : Car) (vin : ℝ) (gear : ℕ) (rpm0 : ℝ) :
    (gear = 1 ∧ (rpmList c rpm0).getD 0 0 < c.engine.minrpm →
      (v_lim_hybrid c vin gear rpm0).2.2 = gear) ∧
    (¬(gear = 1 ∧ (rpmList c rpm0).getD 0 0 < c.engine.minrpm) →
      ((∀ j < (rpmList c rpm0).length, ¬ inBand c ((rpmList c rpm0).getD j 0)) →
        (v_lim_hybrid c vin gear rpm0).2.2 = gear) ∧
      (∀ j, j < (rpmList c rpm0).length → inBand c ((rpmList c rpm0).getD j 0) →
        (∀ k < j, ¬ inBand c ((rpmList c rpm0).getD k 0)) →
        (v_lim_hybrid c vin gear rpm0).2.2 = j + 1)) := by
  have hb : ∀ x : ℝ, (decide (c.engine.maxrpm * 0.95 > x ∧ c.engine.minrpm < x) = true) ↔
      inBand c x := by
    intro x
    simp [inBand, and_comm]
  rw [v_lim_hybrid_gear]
  constructor
  · intro h
    rw [if_pos h]
  · intro h
    rw [if_neg h, List.filter_head?]
    constructor
    · intro hnone
      have : (List.range (rpmList c rpm0).length).find?
          (fun j => decide (c.engine.maxrpm * 0.95 > (rpmList c rpm0).getD j 0 ∧
                            c.engine.minrpm < (rpmList c rpm0).getD j 0)) = none := by
        rw [List.find?_eq_none]
        intro x hx hpx
        exact hnone x (List.mem_range.mp hx) ((hb _).mp hpx)
      rw [this]
    · intro j hj hband hmin
      have : (List.range (rpmList c rpm0).length).find?
          (fun j => decide (c.engine.maxrpm * 0.95 > (rpmList c rpm0).getD j 0 ∧
                            c.engine.minrpm < (rpmList c rpm0).getD j 0)) = some j := by
        rw [find?_range_eq_some_iff]
        exact ⟨hj, (hb _).mpr hband, fun k hk hpk => hmin k hk ((hb _).mp hpk)⟩
      rw [this]

/-- Witness for `c4_gear_selection` at the concrete car `c4car`, wheel rpm
10 and current gear 3: gear 2 (engine rpm 2000) is the lowest gear in the
open band, and the code selects it. -/
theorem c4_gear_selection_witness :
    (v_lim_hybrid c4car 0 3 10).2.2 = 2 := by
  have h := (c4_gear_selection c4car 0 3 10).2
  have h1 : ¬((3 : ℕ) = 1 ∧ (rpmList c4car 10).getD 0 0 < c4car.engine.minrpm) := by
    rintro ⟨h', _⟩
    omega
  refine (h h1).2 1 ?_ ?_ ?_
  · simp only [rpmList, c4car]
    norm_num
  · simp only [inBand, rpmList, c4car]
    norm_num
  · intro k hk
    interval_cases k
    simp only [inBand, rpmList, c4car]
    norm_num

/-! ## IEEE-style values

For the claims about NaN propagation and division by zero (`C3`, `C8`,
`C10`) exact reals are the wrong model: numpy produces `nan`/`±inf`.
`FVal` is an IEEE-754-style double — a finite real, an infinity or NaN —
with numpy's arithmetic and comparison rules (signed zeros are not
distinguished; no claim here depends on them). -/

inductive FVal where
  | fin : ℝ → FVal
  | pinf : FVal
  | ninf : FVal
  | nan : FVal
  deriving DecidableEq

namespace FVal

def neg : FVal → FVal
  | fin x => fin (-x)
  | pinf => ninf
  | ninf => pinf
  | nan => nan

def add : FVal → FVal → FVal
  | nan, _ => nan
  | _, nan => nan
  | fin x, fin y => fin (x + y)
  | pinf, ninf => nan
  | ninf, pinf => nan
  | pinf, _ => pinf
  | _, pinf => pinf
  | ninf, _ => ninf
  | _, ninf => ninf

def sub (a b : FVal) : FVal := add a (neg b)

def mul : FVal → FVal → FVal
  | nan, _ => nan
  | _, nan => nan
  | fin x, fin y => fin (x * y)
  | pinf, fin y => if y = 0 then nan else if 0 < y then pinf else ninf
  | fin x, pinf => if x = 0 then nan else if 0 < x then pinf else ninf
  | ninf, fin y => if y = 0 then nan else if 0 < y then ninf else pinf
  | fin x, ninf => if x = 0 then nan else if 0 < x then ninf else pinf
  | pinf, pinf => pinf
  | pinf, ninf => ninf
  | ninf, pinf => ninf
  | ninf, ninf => pinf

def div : FVal → FVal → FVal
  | nan, _ => nan
  | _, nan => nan
  | fin x, fin y =>
      if y = 0 then (if x = 0 then nan else if 0 < x then pinf else ninf)
      else fin (x / y)
  | fin _, pinf => fin 0
  | fin _, ninf => fin 0
  | pinf, fin y => if 0 ≤ y then pinf else ninf
  | ninf, fin y => if 0 ≤ y then ninf else pinf
  | pinf, pinf => nan
  | pinf, ninf => nan
  | ninf, pinf => nan
  | ninf, ninf => nan

/-- `np.sqrt`: NaN on negative arguments. -/
def sqrt : FVal → FVal
  | fin x => if x < 0 then nan else fin (Real.sqrt x)
  | pinf => pinf
  | ninf => nan
  | nan => nan

/-- Python/numpy `<` on floats: false whenever an operand is NaN. -/
def blt : FVal → FVal → Bool
  | nan, _ => false
  | _, nan => false
  | fin x, fin y => decide (x < y)
  | pinf, _ => false
  | _, pinf => true
  | ninf, ninf => false
  | ninf, _ => true
  | fin _, ninf => false

/-- Python/numpy `==` on floats: false whenever an operand is NaN. -/
def beq : FVal → FVal → Bool
  | nan, _ => false
  | _, nan => false
  | fin x, fin y => decide (x = y)
  | pinf, pinf => true
  | ninf, ninf => true
  | _, _ => false

/-- The pairwise minimum underlying `np.min`: NaN propagates (an array
containing NaN has minimum NaN). -/
def fmin : FVal → FVal → FVal
  | nan, _ => nan
  | _, nan => nan
  | fin x, fin y => fin (min x y)
  | pinf, y => y
  | y, pinf => y
  | ninf, _ => ninf
  | _, ninf => ninf

def isNan : FVal → Bool
  | nan => true
  | _ => false

/-! Reduction lemmas for the `FVal` operations on constructor arguments. -/

@[simp] theorem neg_fin (x : ℝ) : neg (fin x) = fin (-x) := rfl

@[simp] theorem add_fin_fin (x y : ℝ) : add (fin x) (fin y) = fin (x + y) := rfl

@[simp] theorem add_nan (a : FVal) : add a nan = nan := by cases a <;> rfl

@[simp] theorem nan_add (a : FVal) : add nan a = nan := by cases a <;> rfl

@[simp] theorem sub_fin_fin (x y : ℝ) : sub (fin x) (fin y) = fin (x - y) := by
  simp only [sub, neg_fin, add_fin_fin, sub_eq_add_neg]

@[simp] theorem sub_nan (a : FVal) : sub a nan = nan := by cases a <;> rfl

@[simp] theorem nan_sub (a : FVal) : sub nan a = nan := by cases a <;> rfl

@[simp] theorem mul_fin_fin (x y : ℝ) : mul (fin x) (fin y) = fin (x * y) := rfl

@[simp] theorem mul_nan (a : FVal) : mul a nan = nan := by cases a <;> rfl

@[simp] theorem nan_mul (a : FVal) : mul nan a = nan := by cases a <;> rfl

theorem div_fin_fin {y : ℝ} (x : ℝ) (h : y ≠ 0) : div (fin x) (fin y) = fin (x / y) := by
  rw [show div (fin x) (fin y) =
    if y = 0 then (if x = 0 then nan else if 0 < x then pinf else ninf) else fin (x / y)
    from rfl, if_neg h]

@[simp] theorem div_nan (a : FVal) : div a nan = nan := by cases a <;> rfl

@[simp] theorem nan_div (a : FVal) : div nan a = nan := by cases a <;> rfl

@[simp] theorem sqrt_fin (x : ℝ) :
    sqrt (fin x) = if x < 0 then nan else fin (Real.sqrt x) := rfl

@[simp] theorem sqrt_nan : sqrt nan = nan := rfl

@[simp] theorem blt_fin_fin (x y : ℝ) : blt (fin x) (fin y) = decide (x < y) := rfl

@[simp] theorem blt_nan (a : FVal) : blt a nan = false := by cases a <;> rfl

@[simp] theorem nan_blt (a : FVal) : blt nan a = false := by cases a <;> rfl

@[simp] theorem beq_fin_fin (x y : ℝ) : beq (fin x) (fin y) = decide (x = y) := rfl

@[simp] theorem beq_nan (a : FVal) : beq a nan = false := by cases a <;> rfl

@[simp] theorem nan_beq (a : FVal) : beq nan a = false := by cases a <;> rfl

@[simp] theorem fmin_fin_fin (x y : ℝ) : fmin (fin x) (fin y) = fin (min x y) := rfl

@[simp] theorem fmin_nan (a : FVal) : fmin a nan = nan := by cases a <;> rfl

@[simp] theorem nan_fmin (a : FVal) : fmin nan a = nan := by cases a <;> rfl

@[simp] theorem isNan_nan : isNan nan = true := rfl

@[simp] theorem isNan_fin (x : ℝ) : isNan (fin x) = false := rfl

end FVal

/-! ## C8 / C10: `calc_fuel` over IEEE-style values -/

open FVal in
/-- The efficiency lookup of `calc_fuel` (source lines 447–458): wheel
speed → engine angular speed `x` (clamped from below at `eta[0,0]`),
torque `y = Power/x` (clamped from below at `eta[0,1]`), then the SciPy
`griddata` lookup — the oracle `interp`, which returns NaN at operating
points outside the convex hull of the table. -/
def fuel_eta (interp : FVal → FVal → FVal) (c : Car) (gear : ℕ) (v P : FVal) : FVal :=
  let rpm := mul (mul (mul (mul (div v (fin (c.wheel_radius * 0.0254 * 2 * Real.pi)))
    (fin 60)) (fin (c.engine.trans.getD (gear + 1) 0))) (fin (c.engine.trans.getD 0 0)))
    (fin (c.engine.trans.getD 1 0))
  let x0 := mul (mul (div rpm (fin 60)) (fin 2)) (fin Real.pi)
  let x := if blt x0 (fin c.engine.eta00) then fin c.engine.eta00 else x0
  let y0 := div P x
  let y := if blt y0 (fin c.engine.eta01) then fin c.engine.eta01 else y0
  interp x y

open FVal in
/-- `calc_fuel(self, gear, v, Power, t)` (source lines 436–465) over
IEEE-style values.  Returns the ICE energy
`e_ICE = Power*100/eta*t`; `Power == 0` short-circuits to `0` before any
table access. -/
def calc_fuel_ieee (interp : FVal → FVal → FVal) (c : Car) (gear : ℕ) (v P t : FVal) : FVal :=
  if beq P (fin 0) then fin 0
  else mul (div (mul P (fin 100)) (fuel_eta interp c gear v P)) t

open FVal in
/-- The trigger of `calc_fuel`'s console print
`'WARNING: ICE speed and/or torque are outside of the interpolation
range.'` (source line 462): `np.isnan(eta)`.  This print is the only
reporting the source does — nothing is raised or returned. -/
def calc_fuel_warns (interp : FVal → FVal → FVal) (c : Car) (gear : ℕ) (v P : FVal) : Bool :=
  if beq P (fin 0) then false
  else isNan (fuel_eta interp c gear v P)

/-- C10: `calc_fuel` with `Power = 0` returns energy `0` immediately: the
result is `0` for every oracle `interp` (so no efficiency-table lookup can
influence it), the out-of-range warning cannot fire, and the returned
energy is the finite value `0`, never NaN. -/
theorem c10_zero_power_no_lookup (interp : FVal → FVal → FVal) (c : Car) (gear : ℕ)
    (v t : FVal) :
    calc_fuel_ieee interp c gear v (FVal.fin 0) t = FVal.fin 0 ∧
    calc_fuel_warns interp c gear v (FVal.fin 0) = false := by
  constructor <;> simp [calc_fuel_ieee, calc_fuel_warns, FVal.beq]

/-- Models the `griddata` lookup at an operating point outside the convex
hull of the fuel-efficiency table: SciPy returns NaN there. -/
def nanInterp : FVal → FVal → FVal := fun _ _ => FVal.nan

/-- C8 (counterexample): at an operating point outside the table's convex
hull (`griddata` = NaN), `calc_fuel` on the hybrid car `c4car` (gear 1,
`v = 10`, `Power = 100`, `t = 2`) returns `Power*100/NaN*t = NaN` — a
silently propagated invalid number, exactly what the claim says never
happens; the only "report" is the console-print condition
`calc_fuel_warns`, not an `EfficiencyLookupWarning` to the caller. -/
theorem c8_counterexample :
    calc_fuel_ieee nanInterp c4car 1 (FVal.fin 10) (FVal.fin 100) (FVal.fin 2) = FVal.nan ∧
    calc_fuel_warns nanInterp c4car 1 (FVal.fin 10) (FVal.fin 100) = true := by
  constructor <;>
    simp [calc_fuel_ieee, calc_fuel_warns, fuel_eta, nanInterp, FVal.beq, FVal.div,
      FVal.mul, FVal.isNan]

/-- C8 (amended): for a finite operating point with `Power ≠ 0`, the
lookup coordinates are clamped from below at the table's first-row bounds
`eta[0,0]`, `eta[0,1]` (constant extrapolation), the ICE energy is
`Power*100/eta*t` with `eta` read at exactly the clamped coordinates, and
when the lookup falls outside the table's convex hull (`griddata` = NaN)
the returned energy is NaN and the out-of-range condition only drives a
console print — it is not a warning value returned to the caller. -/
theorem c8_clamped_lookup (interp : FVal → FVal → FVal) (c : Car) (gear : ℕ)
    (v P t x0 x y0 y : ℝ) (hP : P ≠ 0) (hw : c.wheel_radius ≠ 0)
    (hx0 : x0 = v / (c.wheel_radius * 0.0254 * 2 * Real.pi) * 60 *
      c.engine.trans.getD (gear + 1) 0 * c.engine.trans.getD 0 0 *
      c.engine.trans.getD 1 0 / 60 * 2 * Real.pi)
    (hx : x = if x0 < c.engine.eta00 then c.engine.eta00 else x0)
    (hxne : x ≠ 0)
    (hy0 : y0 = P / x)
    (hy : y = if y0 < c.engine.eta01 then c.engine.eta01 else y0) :
    calc_fuel_ieee interp c gear (FVal.fin v) (FVal.fin P) (FVal.fin t) =
      FVal.mul (FVal.div (FVal.fin (P * 100)) (interp (FVal.fin x) (FVal.fin y)))
        (FVal.fin t) ∧
    (x0 < c.engine.eta00 → x = c.engine.eta00) ∧
    (y0 < c.engine.eta01 → y = c.engine.eta01) ∧
    (interp (FVal.fin x) (FVal.fin y) = FVal.nan →
      calc_fuel_ieee interp c gear (FVal.fin v) (FVal.fin P) (FVal.fin t) = FVal.nan ∧
      calc_fuel_warns interp c gear (FVal.fin v) (FVal.fin P) = true) := by
  have hd : (c.wheel_radius * 0.0254 * 2 * Real.pi) ≠ 0 :=
    mul_ne_zero (mul_ne_zero (mul_ne_zero hw (by norm_num)) (by norm_num)) Real.pi_ne_zero
  have hdivd : FVal.div (FVal.fin v) (FVal.fin (c.wheel_radius * 0.0254 * 2 * Real.pi)) =
      FVal.fin (v / (c.wheel_radius * 0.0254 * 2 * Real.pi)) := FVal.div_fin_fin v hd
  have hdiv60 : ∀ z : ℝ, FVal.div (FVal.fin z) (FVal.fin 60) = FVal.fin (z / 60) :=
    fun z => FVal.div_fin_fin z (by norm_num)
  have hfe : fuel_eta interp c gear (FVal.fin v) (FVal.fin P) =
      interp (FVal.fin x) (FVal.fin y) := by
    simp only [fuel_eta, hdivd, FVal.mul_fin_fin, hdiv60, FVal.blt_fin_fin,
      decide_eq_true_eq]
    rw [← hx0, ← apply_ite FVal.fin, ← hx, FVal.div_fin_fin P hxne, ← hy0]
    simp only [FVal.blt_fin_fin, decide_eq_true_eq]
    rw [← apply_ite FVal.fin, ← hy]
  have hbeq : FVal.beq (FVal.fin P) (FVal.fin 0) = false := by
    simp [FVal.beq, hP]
  have hmain : calc_fuel_ieee interp c gear (FVal.fin v) (FVal.fin P) (FVal.fin t) =
      FVal.mul (FVal.div (FVal.fin (P * 100)) (interp (FVal.fin x) (FVal.fin y)))
        (FVal.fin t) := by
    rw [calc_fuel_ieee, hbeq]
    simp only [Bool.false_eq_true, if_false, hfe, FVal.mul]
  refine ⟨hmain, fun h => by rw [hx, if_pos h], fun h => by rw [hy, if_pos h], fun hnan => ?_⟩
  constructor
  · rw [hmain, hnan]
    rfl
  · rw [calc_fuel_warns, hbeq]
    simp only [Bool.false_eq_true, if_false, hfe, hnan]
    rfl

/-- Constant in-hull oracle used by the C8 witness. -/
def constInterp : FVal → FVal → FVal := fun _ _ => FVal.fin 5

/-- Witness for `c8_clamped_lookup`: the hybrid car `c4car` in gear 1 at
`v = 10`, `Power = 100`, `t = 2`; the engine speed is about 3937 rad/s, no
clamp binds, and the energy is `100*100/eta*2` at the looked-up point. -/
theorem c8_clamped_lookup_witness :
    calc_fuel_ieee constInterp c4car 1 (FVal.fin 10) (FVal.fin 100) (FVal.fin 2) =
      FVal.mul (FVal.div (FVal.fin (100 * 100))
        (constInterp (FVal.fin (10 / (10 * 0.0254 * 2 * Real.pi) * 60 * 100 * 1 * 1 / 60 * 2
          * Real.pi))
          (FVal.fin (100 / (10 / (10 * 0.0254 * 2 * Real.pi) * 60 * 100 * 1 * 1 / 60 * 2
          * Real.pi)))))
        (FVal.fin 2) := by
  have hpi := Real.pi_pos
  have hx0pos : (0:ℝ) < 10 / (10 * 0.0254 * 2 * Real.pi) * 60 * 100 * 1 * 1 / 60 * 2
      * Real.pi := by positivity
  have hy0pos : (0:ℝ) < 100 / (10 / (10 * 0.0254 * 2 * Real.pi) * 60 * 100 * 1 * 1 / 60 * 2
      * Real.pi) := by positivity
  have h := c8_clamped_lookup constInterp c4car 1 10 100 2
    (10 / (10 * 0.0254 * 2 * Real.pi) * 60 * 100 * 1 * 1 / 60 * 2 * Real.pi)
    (10 / (10 * 0.0254 * 2 * Real.pi) * 60 * 100 * 1 * 1 / 60 * 2 * Real.pi)
    (100 / (10 / (10 * 0.0254 * 2 * Real.pi) * 60 * 100 * 1 * 1 / 60 * 2 * Real.pi))
    (100 / (10 / (10 * 0.0254 * 2 * Real.pi) * 60 * 100 * 1 * 1 / 60 * 2 * Real.pi))
    (by norm_num) (by norm_num [c4car])
    (by simp [c4car]) (if_neg (not_lt.mpr hx0pos.le)).symm
    (ne_of_gt hx0pos) rfl
    (if_neg (not_lt.mpr hy0pos.le)).symm
  exact h.1

/-! ## C3: the four candidate-velocity formulas over IEEE-style values -/

open FVal in
/-- The candidate-velocity block of `calc_velocity` (source lines
315–359) over IEEE-style values: the four candidate speeds and times, the
four-way `np.min` (NaN wins), the `if v == cand / elif ...` selection
cascade, and the energy accounting of the selected branch.  The
powertrain-limit call preceding this block returns the finite reals
`(a_tor, maxrpm, gear_new)`, which are arguments here.  Returns `none`
when no selection branch matches — in the Python source the branch
variables `t`/`p_ICE` then stay unassigned and the function dies with
`UnboundLocalError`, which happens exactly when NaN wins the minimum. -/
def calc_velocity_ieee (interp : FVal → FVal → FVal) (c : Car) (ds : ℝ)
    (vin ap : FVal) (roc a_tor maxrpm : ℝ) (gear_new : ℕ) :
    Option (FVal × ℕ × (FVal × FVal) × FVal) :=
  let v_tor := sqrt (add (fin (2 * a_tor * ds)) (mul vin vin))
  let t_tor := div (sub v_tor vin) (fin a_tor)
  let a_trac := sqrt (sub (fin (c.alim ^ 2)) (mul ap ap))
  let v_trac := sqrt (add (mul (mul (fin 2) a_trac) (fin ds)) (mul vin vin))
  let t_trac := div (sub v_trac vin) a_trac
  let v_trac_l := sqrt (fin (c.alim * roc))
  let a_trac_l := div (sub (mul v_trac_l v_trac_l) (mul vin vin)) (fin (2 * ds))
  let t_trac_l := div (sub v_trac_l vin) a_trac_l
  let v_rpm := fin (maxrpm / 60 * (c.wheel_radius * 0.0254 * 2 * Real.pi))
  let a_rpm := div (sub (mul v_rpm v_rpm) (mul vin vin)) (fin (2 * ds))
  let t_rpm := div (sub v_rpm vin) a_rpm
  let v := fmin (fmin (fmin v_trac v_tor) v_rpm) v_trac_l
  let sel : Option (FVal × FVal) :=
    if beq v v_tor then some (t_tor, fin a_tor)
    else if beq v v_trac then some (t_trac, a_trac)
    else if beq v v_trac_l then some (t_trac_l, a_trac_l)
    else if beq v v_rpm then some (t_rpm, a_rpm)
    else none
  match sel with
  | none => none
  | some ta =>
    let t := ta.1
    let a := ta.2
    let p_ICE := mul (mul (mul (fin c.m) a) v) (fin (c.hybrid * c.power_split))
    let p_EM := sub (mul (mul (fin c.m) a) v) p_ICE
    let e_ICE := calc_fuel_ieee interp c gear_new v p_ICE t
    let e_EM := div (mul p_EM t) (fin (c.motor.eta / 100))
    some (v, gear_new, (e_ICE, e_EM), t)

/-- Electric car for the C3 inputs: `mu = 1` so `alim = 9.81`;
`wheel_radius = 5000/127` inches so that `wheel_radius * 0.0254 = 1`
exactly. -/
def c3car : Car :=
  { m := 250, mu := 1, wheel_radius := 5000 / 127, hybrid := 0, power_split := 0,
    engine := engine0,
    motor := { torque_max := 100, power_max := 50, maxrpm := 600, trans := 1, eta := 90 },
    etaInterp := fun _ _ => 0 }

/-- `0/0` on IEEE values is NaN. -/
@[simp] theorem FVal.div_zero_zero : FVal.div (FVal.fin 0) (FVal.fin 0) = FVal.nan := by
  rw [show FVal.div (FVal.fin 0) (FVal.fin 0) =
    if (0:ℝ) = 0 then (if (0:ℝ) = 0 then FVal.nan else if (0:ℝ) < 0 then FVal.pinf
      else FVal.ninf) else FVal.fin (0 / 0) from rfl]
  simp

/-- Shared evaluation lemma: `calc_velocity` at exactly the traction limit
`ap = alim`.  The margin `a_trac = sqrt(alim² − ap²)` is `0`, the traction
candidate is `v_trac = sqrt(0 + vin²) = vin`; when the other three
candidates are strictly larger, the traction branch wins the minimum and
its time increment is `(vin - vin)/0 = 0/0 = NaN`; the EM energy
`p_EM*t/...` is then NaN as well. -/
theorem calc_velocity_ieee_alim_margin (interp : FVal → FVal → FVal) (c : Car)
    (ds vin roc a_tor maxrpm : ℝ) (gear_new : ℕ)
    (hvin : 0 < vin) (htor : 0 < 2 * a_tor * ds) (hlat : vin * vin < c.alim * roc)
    (hrpm : vin < maxrpm / 60 * (c.wheel_radius * 0.0254 * 2 * Real.pi)) :
    calc_velocity_ieee interp c ds (FVal.fin vin) (FVal.fin c.alim) roc a_tor maxrpm
      gear_new =
      some (FVal.fin vin, gear_new, (FVal.fin 0, FVal.nan), FVal.nan) := by
  have hmargin : c.alim ^ 2 - c.alim * c.alim = 0 := by ring
  have hvv : 2 * (0:ℝ) * ds + vin * vin = vin * vin := by ring
  have hsvv : Real.sqrt (vin * vin) = vin := Real.sqrt_mul_self hvin.le
  have hvtor : vin < Real.sqrt (2 * a_tor * ds + vin * vin) := by
    rw [Real.lt_sqrt hvin.le, pow_two]
    linarith
  have hvlat : vin < Real.sqrt (c.alim * roc) := by
    rw [Real.lt_sqrt hvin.le, pow_two]
    exact hlat
  have htornn : ¬(2 * a_tor * ds + vin * vin < 0) := by nlinarith
  have hlatnn : ¬(c.alim * roc < 0) := by nlinarith
  have hvvnn : ¬(vin * vin < 0) := not_lt.mpr (mul_self_nonneg vin)
  simp only [calc_velocity_ieee, FVal.mul_fin_fin, FVal.sub_fin_fin, hmargin,
    FVal.sqrt_fin, lt_irrefl, if_false, Real.sqrt_zero, mul_zero, zero_mul, hvv,
    if_neg htornn, if_neg hlatnn, if_neg hvvnn, hsvv, FVal.add_fin_fin, zero_add,
    FVal.fmin_fin_fin, min_eq_left hvtor.le, min_eq_left hvlat.le,
    min_eq_left hrpm.le, FVal.beq_fin_fin, decide_eq_true_eq]
  rw [if_neg hvtor.ne]
  simp only [if_true, sub_self, FVal.div_zero_zero, FVal.mul_fin_fin,
    mul_zero, zero_mul, FVal.mul_nan, FVal.nan_div]
  norm_num [calc_fuel_ieee, FVal.beq_fin_fin]

/-- C3 (amended): the divisions in the four candidate-velocity formulas
are *not* guarded.  Whenever `ap = alim` exactly (zero combined-traction
margin) and the other three candidates are strictly slower-binding, the
traction branch wins the four-way minimum and the returned time increment
is `(v_trac - vin)/a_trac = 0/0 = NaN`, which also propagates into the EM
energy — there is no sentinel; the only guarded division in the source is
`omega_ICE` in `v_lim_hybrid` (line 393). -/
theorem c3_division_unguarded (interp : FVal → FVal → FVal) (c : Car)
    (ds vin roc a_tor maxrpm : ℝ) (gear_new : ℕ)
    (hvin : 0 < vin) (htor : 0 < 2 * a_tor * ds) (hlat : vin * vin < c.alim * roc)
    (hrpm : vin < maxrpm / 60 * (c.wheel_radius * 0.0254 * 2 * Real.pi)) :
    calc_velocity_ieee interp c ds (FVal.fin vin) (FVal.fin c.alim) roc a_tor maxrpm
      gear_new =
      some (FVal.fin vin, gear_new, (FVal.fin 0, FVal.nan), FVal.nan) :=
  calc_velocity_ieee_alim_margin interp c ds vin roc a_tor maxrpm gear_new hvin htor
    hlat hrpm

/-- Witness for `c3_division_unguarded`: the electric car `c3car` with
`ds = 20`, `vin = 10`, `ap = alim = 9.81`, `roc = 100`, `a_tor = 2`,
`maxrpm = 600`: the returned velocity is the finite `10` but the returned
time increment and EM energy are NaN. -/
theorem c3_division_unguarded_witness :
    calc_velocity_ieee nanInterp c3car 20 (FVal.fin 10) (FVal.fin c3car.alim) 100 2 600 1 =
      some (FVal.fin 10, 1, (FVal.fin 0, FVal.nan), FVal.nan) := by
  apply c3_division_unguarded
  · norm_num
  · norm_num
  · norm_num [Car.alim, g, c3car]
  · have hpi := Real.pi_gt_three
    rw [show (600:ℝ) / 60 * (c3car.wheel_radius * 0.0254 * 2 * Real.pi) = 20 * Real.pi by
      rw [show c3car.wheel_radius = 5000 / 127 from rfl]; ring]
    nlinarith

/-- C3 (counterexample): the claim says each division-by-zero is guarded
and no NaN can win the four-way minimum.  Two concrete calls on the
electric car `c3car` (`ds = 20`, powertrain limits `a_tor = 2`,
`maxrpm = 600`) falsify it: with `ap = alim` the time increment `0/0`
comes back NaN (no sentinel), and with `ap = 15 > alim` the traction
candidate `sqrt(alim² - ap²)` is NaN, NaN wins `np.min`, no selection
branch matches, and the call has no defined result at all (in Python:
`UnboundLocalError`). -/
theorem c3_counterexample :
    calc_velocity_ieee nanInterp c3car 20 (FVal.fin 10) (FVal.fin 15) 100 2 600 1 = none ∧
    (calc_velocity_ieee nanInterp c3car 20 (FVal.fin 10) (FVal.fin c3car.alim) 100 2 600
      1).map (fun out => out.2.2.2) = some FVal.nan := by
  constructor
  · norm_num [calc_velocity_ieee, Car.alim, g, c3car, FVal.mul_fin_fin, FVal.sub_fin_fin,
      FVal.sqrt_fin, FVal.mul_nan, FVal.nan_mul, FVal.add_nan, FVal.nan_add,
      FVal.sqrt_nan, FVal.nan_sub, FVal.sub_nan, FVal.nan_div, FVal.div_nan,
      FVal.nan_fmin, FVal.fmin_nan, FVal.nan_beq, FVal.beq_nan]
  · rw [calc_velocity_ieee_alim_margin nanInterp c3car 20 10 100 2 600 1 (by norm_num)
      (by norm_num) (by norm_num [Car.alim, g, c3car])
      (by
        have hpi := Real.pi_gt_three
        rw [show (600:ℝ) / 60 * (c3car.wheel_radius * 0.0254 * 2 * Real.pi) = 20 * Real.pi
          by rw [show c3car.wheel_radius = 5000 / 127 from rfl]; ring]
        nlinarith)]
    rfl

/-! ## C7: `find_apex` (source lines 170–194)

`find_apex` is pure array/sign arithmetic, so it is embedded over `ℚ`
(executable); the radii it is applied to play no other role in the claim. -/

/-- `np.sign` on a scalar. -/
def npSign (x : ℚ) : ℚ := if x < 0 then -1 else if x = 0 then 0 else 1

/-- Python / numpy integer indexing with wraparound: `l[i]` for
`-len ≤ i < len` resolves negative indices from the end, i.e. modulo the
length. -/
def pyGet {α : Type} (l : List α) (d : α) (i : ℤ) : α :=
  l.getD (i.emod l.length).toNat d

/-- `dr = self.r - np.roll(self.r, 1)` at index `i`:
`dr[i] = r[i] - r[i-1]` with wraparound. -/
def drAt (r : List ℚ) (i : ℕ) : ℚ := r.getD i 0 - pyGet r 0 ((i : ℤ) - 1)

/-- `sign_flip = sign - np.roll(sign, -1)` at index `i`:
`sign_flip[i] = sign(dr[i]) - sign(dr[i+1])` with wraparound. -/
def signFlipAt (r : List ℚ) (i : ℕ) : ℚ :=
  npSign (drAt r i) - npSign (drAt r ((i + 1) % r.length))

/-- The sign-flip array. -/
def signFlipList (r : List ℚ) : List ℚ := (List.range r.length).map (signFlipAt r)

/-- `apex = np.where(sign_flip == np.min(sign_flip))[0]` — the ascending
list of indices attaining the minimum of the sign-flip array. -/
def apexIndices (r : List ℚ) : List ℕ :=
  (List.range r.length).filter
    (fun i => decide (signFlipAt r i = ((signFlipList r).min?.getD 0)))

/-- `find_apex` (source lines 170–194): detect the apexes, then rotate
`self.r` and `self.pts_interp` by `idx = arange(N) - (N - apex[0][0])`
(numpy fancy indexing with negative indices, i.e. a cyclic rotation
bringing the first apex to position 0), and re-express the apex indices
as `apex - apex[0][0]`.  Returns `(apex levels, rotated r, rotated pts)`. -/
def find_apex (r : List ℚ) (pts : List (ℚ × ℚ)) :
    List ℕ × List ℚ × List (ℚ × ℚ) :=
  let apex := apexIndices r
  let idx0 : ℤ := (r.length : ℤ) - (apex.headD 0 : ℤ)
  let rNew := (List.range r.length).map (fun j : ℕ => pyGet r 0 ((j : ℤ) - idx0))
  let ptsNew := (List.range r.length).map (fun j : ℕ => pyGet pts (0, 0) ((j : ℤ) - idx0))
  (apex.map (fun a => a - apex.headD 0), rNew, ptsNew)

/-- Element lookup in a `map` over `List.range`. -/
theorem getD_map_range {α : Type} (n j : ℕ) (f : ℕ → α) (d : α) (h : j < n) :
    ((List.range n).map f).getD j d = f j := by
  rw [List.getD_eq_getElem?_getD, List.getElem?_map, List.getElem?_range h]
  rfl

/-- C7: `find_apex` returns exactly the indices attaining the minimum of
the sign-flip array (the argmin set), rotates the radius array and the
track points cyclically so that the first detected apex becomes index 0,
and re-expresses the apex indices in the rotated frame (in particular the
first returned apex index is 0). -/
theorem c7_find_apex (r : List ℚ) (pts : List (ℚ × ℚ)) (hr : r ≠ [])
    (hlen : pts.length = r.length) :
    apexIndices r = (List.range r.length).filter
      (fun i => decide (∀ j < r.length, signFlipAt r i ≤ signFlipAt r j)) ∧
    ((find_apex r pts).1).head? = some 0 ∧
    (∀ j < r.length, ((find_apex r pts).2.1).getD j 0 =
      r.getD ((j + (apexIndices r).headD 0) % r.length) 0) ∧
    (∀ j < r.length, ((find_apex r pts).2.2).getD j (0, 0) =
      pts.getD ((j + (apexIndices r).headD 0) % r.length) (0, 0)) ∧
    (find_apex r pts).1 =
      (apexIndices r).map (fun a => a - (apexIndices r).headD 0) := by
  have hlen0 : 0 < r.length := List.length_pos.mpr hr
  have hsf : (signFlipList r).length = r.length := by simp [signFlipList]
  have hsfne : signFlipList r ≠ [] := by
    intro h
    rw [h] at hsf
    simp only [List.length_nil] at hsf
    omega
  obtain ⟨m, hm⟩ : ∃ m, (signFlipList r).min? = some m := by
    rcases h : (signFlipList r).min? with _ | m
    · exact absurd (List.min?_eq_none_iff.mp h) hsfne
    · exact ⟨m, rfl⟩
  have hmgetD : (signFlipList r).min?.getD 0 = m := by rw [hm]; rfl
  have hmem : m ∈ signFlipList r := List.min?_mem (fun a b => min_choice a b) hm
  have hle : ∀ x ∈ signFlipList r, m ≤ x := fun x hx =>
    (List.le_min?_iff (fun a b c => le_min_iff) hm).mp le_rfl x hx
  have hmem' : ∃ k, k < r.length ∧ signFlipAt r k = m := by
    rw [signFlipList, List.mem_map] at hmem
    obtain ⟨k, hk, hval⟩ := hmem
    exact ⟨k, List.mem_range.mp hk, hval⟩
  have hleIdx : ∀ j < r.length, m ≤ signFlipAt r j := fun j hj =>
    hle _ (by rw [signFlipList]; exact List.mem_map.mpr ⟨j, List.mem_range.mpr hj, rfl⟩)
  have ha : apexIndices r = (List.range r.length).filter
      (fun i => decide (∀ j < r.length, signFlipAt r i ≤ signFlipAt r j)) := by
    rw [apexIndices]
    refine List.filter_congr ?_
    intro i hi
    rw [hmgetD]
    simp only [decide_eq_decide]
    constructor
    · intro hpi j hj
      rw [hpi]
      exact hleIdx j hj
    · intro hq
      obtain ⟨k, hk, hkm⟩ := hmem'
      exact le_antisymm (hkm ▸ hq k hk) (hleIdx i (List.mem_range.mp hi))
  obtain ⟨k, hk, hkm⟩ := hmem'
  have hknz : k ∈ apexIndices r := by
    rw [apexIndices, List.mem_filter]
    refine ⟨List.mem_range.mpr hk, ?_⟩
    rw [hmgetD]
    exact decide_eq_true hkm
  obtain ⟨a0, tl, hhead⟩ : ∃ a0 tl, apexIndices r = a0 :: tl := by
    rcases hA : apexIndices r with _ | ⟨a0, tl⟩
    · rw [hA] at hknz
      exact absurd hknz (List.not_mem_nil k)
    · exact ⟨a0, tl, rfl⟩
  have ha0D : (apexIndices r).headD 0 = a0 := by rw [hhead]; rfl
  have ha0lt : a0 < r.length := by
    have hmem0 : a0 ∈ apexIndices r := by
      rw [hhead]
      exact List.mem_cons_self a0 tl
    rw [apexIndices, List.mem_filter] at hmem0
    exact List.mem_range.mp hmem0.1
  refine ⟨ha, ?_, ?_, ?_, rfl⟩
  · show ((apexIndices r).map (fun a => a - (apexIndices r).headD 0)).head? = some 0
    rw [ha0D, hhead]
    simp [Nat.sub_self]
  · intro j hj
    simp only [find_apex]
    rw [getD_map_range _ _ _ _ hj, pyGet, ha0D]
    congr 1
    rw [show (j : ℤ) - ((r.length : ℤ) - (a0 : ℤ)) = ((j + a0 : ℕ) : ℤ) - (r.length : ℤ)
      by push_cast; ring]
    rw [show ((((j + a0 : ℕ) : ℤ) - (r.length : ℤ)).emod (r.length : ℤ)) =
      (((j + a0 : ℕ) : ℤ)).emod (r.length : ℤ) by
        exact Int.emod_sub_cancel ((j + a0 : ℕ) : ℤ) (r.length : ℤ)]
    rw [show (((j + a0 : ℕ) : ℤ)).emod (r.length : ℤ) = (((j + a0) % r.length : ℕ) : ℤ)
      by push_cast; rfl]
    exact Int.toNat_ofNat _
  · intro j hj
    simp only [find_apex]
    rw [getD_map_range _ _ _ _ hj, pyGet, ha0D, hlen]
    congr 1
    rw [show (j : ℤ) - ((r.length : ℤ) - (a0 : ℤ)) = ((j + a0 : ℕ) : ℤ) - (r.length : ℤ)
      by push_cast; ring]
    rw [show ((((j + a0 : ℕ) : ℤ) - (r.length : ℤ)).emod (r.length : ℤ)) =
      (((j + a0 : ℕ) : ℤ)).emod (r.length : ℤ) by
        exact Int.emod_sub_cancel ((j + a0 : ℕ) : ℤ) (r.length : ℤ)]
    rw [show (((j + a0 : ℕ) : ℤ)).emod (r.length : ℤ) = (((j + a0) % r.length : ℕ) : ℤ)
      by push_cast; rfl]
    exact Int.toNat_ofNat _

/-- Witness for `c7_find_apex`: the concrete radius list `[3, 1, 2, 4]`
with four track points. -/
theorem c7_find_apex_witness :
    ((find_apex [3, 1, 2, 4] [(1, 0), (2, 0), (3, 0), (4, 0)]).1).head? = some 0 :=
  (c7_find_apex [3, 1, 2, 4] [(1, 0), (2, 0), (3, 0), (4, 0)] (by simp)
    (by simp)).2.1

/-! ## C9: `discretize` (source lines 108–144)

The SciPy periodic-cubic interpolant `interp1d(s, x, kind='cubic',
fill_value='extrapolate')` is an oracle `interp knots vals t`; everything
else (arc lengths, total length, normalisation, knot construction,
evaluation grid, `ds`) is embedded.  The 2-D case is embedded (the claim
does not involve elevation). -/

/-- Per-segment Euclidean displacement norms
`arclen = norm(roll(pts,-1) - pts)` (with wraparound). -/
def arclenList (pts : List (ℝ × ℝ)) : List ℝ :=
  (List.range pts.length).map (fun i : ℕ =>
    Real.sqrt (((pyGet pts (0, 0) ((i : ℤ) + 1)).1 - (pts.getD i (0, 0)).1) ^ 2 +
               ((pyGet pts (0, 0) ((i : ℤ) + 1)).2 - (pts.getD i (0, 0)).2) ^ 2))

/-- `track_len = np.sum(arclen)`. -/
def trackLen (pts : List (ℝ × ℝ)) : ℝ := (arclenList pts).sum

/-- The interpolation knots `s = np.append(0, np.cumsum(arclen)/track_len)`. -/
def sKnots (pts : List (ℝ × ℝ)) : List ℝ :=
  0 :: (List.range pts.length).map
    (fun i : ℕ => (((arclenList pts).take (i + 1)).sum) / trackLen pts)

/-- The per-axis interpolation values: the coordinates rescaled by
`1000/track_len` (the source rescales `self.pts` before interpolating),
with the first point appended for periodicity
(`x = np.append(self.pts[i], self.pts[i,0])`). -/
def axisVals (pts : List (ℝ × ℝ)) (ax : (ℝ × ℝ) → ℝ) : List ℝ :=
  pts.map (fun p => ax p / trackLen pts * 1000) ++
    [ax (pts.headD (0, 0)) / trackLen pts * 1000]

/-- `discretize` (source lines 108–144): returns
`((x samples, y samples), ds, track_len)` where the samples are the
interpolant evaluated on `snew = linspace(0, 1, steps, endpoint=False)`,
`ds = 1000/steps` and the returned total length is the constant `1000`.
The source performs no input validation and raises nothing itself. -/
def discretize (interp : List ℝ → List ℝ → ℝ → ℝ) (pts : List (ℝ × ℝ)) (steps : ℕ) :
    (List ℝ × List ℝ) × ℝ × ℝ :=
  let snew := (List.range steps).map (fun k : ℕ => (k : ℝ) / steps)
  let xnew := snew.map (interp (sKnots pts) (axisVals pts Prod.fst))
  let ynew := snew.map (interp (sKnots pts) (axisVals pts Prod.snd))
  ((xnew, ynew), 1000 / steps, 1000)

/-- C9 (amended): `discretize` performs no validation and has no
`GeometryError` path: for every input — degenerate or not — it returns
`ds = 1000/steps`, reports total length `1000`, and its samples are
exactly the interpolation oracle evaluated at the uniform parameter grid
`k/steps` over the knots/values it built.  Degenerate inputs surface as
NaN arithmetic or an error inside the external interpolation routine, not
as a `GeometryError`. -/
theorem c9_discretize_no_validation (interp : List ℝ → List ℝ → ℝ → ℝ)
    (pts : List (ℝ × ℝ)) (steps : ℕ) :
    (discretize interp pts steps).2.1 = 1000 / steps ∧
    (discretize interp pts steps).2.2 = 1000 ∧
    (∀ k < steps, ((discretize interp pts steps).1.1).getD k 0 =
      interp (sKnots pts) (axisVals pts Prod.fst) ((k : ℝ) / steps)) ∧
    (∀ k < steps, ((discretize interp pts steps).1.2).getD k 0 =
      interp (sKnots pts) (axisVals pts Prod.snd) ((k : ℝ) / steps)) := by
  refine ⟨rfl, rfl, ?_, ?_⟩ <;> intro k hk <;>
    simp only [discretize, List.map_map] <;>
    rw [getD_map_range _ _ _ _ hk] <;> rfl

/-- C9 (counterexample): the input `[(0,0),(1,0),(0,0),(1,0)]` has only
two distinct points, yet `discretize` succeeds and returns `ds = 1000/50 =
20` — there is no `GeometryError` (no such error exists anywhere in the
source).  Its knot vector `[0, 1/4, 1/2, 3/4, 1]` is strictly increasing
with five entries, so even the external cubic interpolant is well-posed on
this input and the success is real, not an artifact of the oracle. -/
theorem c9_counterexample :
    (discretize (fun _ _ _ => 0) [(0, 0), (1, 0), (0, 0), (1, 0)] 50).2.1 = 20 ∧
    (∀ p ∈ [((0 : ℝ), (0 : ℝ)), (1, 0), (0, 0), (1, 0)], p = (0, 0) ∨ p = (1, 0)) ∧
    ((0 : ℝ), (0 : ℝ)) ≠ ((1 : ℝ), (0 : ℝ)) ∧
    sKnots [(0, 0), (1, 0), (0, 0), (1, 0)] = [0, 1 / 4, 1 / 2, 3 / 4, 1] := by
  have hexp : arclenList [(0, 0), (1, 0), (0, 0), (1, 0)] =
      [Real.sqrt ((1 - 0) ^ 2 + (0 - 0) ^ 2), Real.sqrt ((0 - 1) ^ 2 + (0 - 0) ^ 2),
       Real.sqrt ((1 - 0) ^ 2 + (0 - 0) ^ 2), Real.sqrt ((0 - 1) ^ 2 + (0 - 0) ^ 2)] := rfl
  have harc : arclenList [(0, 0), (1, 0), (0, 0), (1, 0)] = [1, 1, 1, 1] := by
    rw [hexp]
    norm_num [Real.sqrt_eq_one]
  have htl : trackLen [(0, 0), (1, 0), (0, 0), (1, 0)] = 4 := by
    rw [trackLen, harc]
    norm_num
  refine ⟨by norm_num [discretize], ?_, ?_, ?_⟩
  · intro p hp
    simp only [List.mem_cons, List.not_mem_nil, or_false] at hp
    rcases hp with h | h | h | h <;> simp [h]
  · intro h
    rw [Prod.ext_iff] at h
    exact absurd h.1 (by norm_num)
  · rw [sKnots, harc, htl]
    norm_num [List.range_succ, List.take]

/-! ## The velocity-profile solver `get_velocity_list` (source lines 197–268)

The circular arrays of length `N = self.steps` become `Fin N → ℝ`; the
cursor `i` is an integer (python lets it go negative during the backward
pass, resolving `v[i]` by wraparound); `np.remainder(i, N)` and python
negative indexing both become `idxZ`.  The string state `'f'/'b'` becomes
the `braking` flag.  `self.apex[0]` is the `List (Fin N)` of apex indices
produced by apex detection; `self.r` is the radius array; `self.ds` the
arc increment. -/

/-- `np.remainder(i, N)` / python wraparound index. -/
def idxZ (N : ℕ) [NeZero N] (i : ℤ) : Fin N :=
  ⟨(i.emod N).toNat, by
    have hN : 0 < N := Nat.pos_of_ne_zero (NeZero.ne N)
    have h1 : 0 ≤ i.emod (N : ℤ) := Int.emod_nonneg i (by exact_mod_cast hN.ne')
    have h2 : i.emod (N : ℤ) < (N : ℤ) := Int.emod_lt_of_pos i (by exact_mod_cast hN)
    omega⟩

/-- The powertrain model evaluated at the lateral-traction speed
`v_trac = sqrt(mu*g*r)` of an apex with radius `rc`, as `v_apex` does:
returns `(maxrpm, gear)` — the wheel rpm ceiling and the chosen gear
(`v_lim_hybrid(v_trac, 0, rpm0)` for hybrid cars, gear 1 for electric). -/
def apexLim (c : Car) (rc : ℝ) : ℝ × ℕ :=
  let v_trac := Real.sqrt (c.mu * g * rc)
  let rpm0 := v_trac / (c.wheel_radius * 0.0254 * 2 * Real.pi) * 60
  if c.hybrid = 1 then
    ((v_lim_hybrid c v_trac 0 rpm0).2.1, (v_lim_hybrid c v_trac 0 rpm0).2.2)
  else ((v_lim_electric c v_trac rpm0).2, 1)

/-- The wheel-speed ceiling `v_rpm = maxrpm/60*(wheel_radius*0.0254*2*pi)`
corresponding to the powertrain rpm ceiling at an apex of radius `rc`. -/
def apexSpeedCeil (c : Car) (rc : ℝ) : ℝ :=
  (apexLim c rc).1 / 60 * (c.wheel_radius * 0.0254 * 2 * Real.pi)

/-- `v_apex` (source lines 270–286): for every apex index `i`, set
`v[i] = min(v_trac, v_rpm)` and `gear[i]` from the powertrain model
evaluated at `v_trac`; all other entries stay `0`. -/
def v_apex {N : ℕ} (c : Car) (r : Fin N → ℝ) (A : List (Fin N)) :
    (Fin N → ℝ) × (Fin N → ℕ) :=
  A.foldl
    (fun vg i =>
      (Function.update vg.1 i (min (Real.sqrt (c.mu * g * r i)) (apexSpeedCeil c (r i))),
       Function.update vg.2 i (apexLim c (r i)).2))
    (fun _ => 0, fun _ => 0)

/-- The mutable state of the `while` loop of `get_velocity_list`. -/
structure GVLState (N : ℕ) where
  v : Fin N → ℝ
  gear : Fin N → ℕ
  energy : Fin N → ℝ × ℝ
  time : Fin N → ℝ
  i : ℤ
  apexIdx : ℕ
  braking : Bool

/-- The state entering the loop (source lines 211–218): velocities and
gears from `v_apex`, `gear[0] = 1`, cursor at 0, apex cursor 0, state
`'f'`. -/
def initState {N : ℕ} [NeZero N] (c : Car) (r : Fin N → ℝ) (A : List (Fin N)) :
    GVLState N :=
  { v := (v_apex c r A).1,
    gear := Function.update (v_apex c r A).2 (idxZ N 0) 1,
    energy := fun _ => (0, 0), time := fun _ => 0,
    i := 0, apexIdx := 0, braking := false }

/-- One iteration of the `while i < self.steps` loop (source lines
221–262).  `Sum.inl` continues, `Sum.inr` is the `break` ("reached end of
track"). -/
def gvl_step {N : ℕ} [NeZero N] (c : Car) (ds : ℝ) (r : Fin N → ℝ) (A : List (Fin N))
    (s : GVLState N) : GVLState N ⊕ GVLState N :=
  if s.braking = false then
    let i1 := idxZ N (s.i + 1)
    if s.v i1 = 0 then
      let ap := (s.v (idxZ N s.i)) ^ 2 / r i1
      if c.alim > ap then
        let res := calc_velocity c ds (s.v (idxZ N s.i)) ap (s.gear (idxZ N s.i)) (r i1)
        Sum.inl { s with
          v := Function.update s.v i1 res.1
          gear := Function.update s.gear i1 res.2.1
          energy := Function.update s.energy i1 res.2.2.1
          time := Function.update s.time i1 res.2.2.2
          i := (i1 : ℤ) }
      else
        let a' := (s.apexIdx + 1) % A.length
        Sum.inl { s with
          braking := true
          apexIdx := a'
          i := ((A.getD a' (idxZ N 0) : Fin N) : ℤ) }
    else
      if Finset.univ.inf' ⟨idxZ N 0, Finset.mem_univ _⟩ s.v = 0 then
        Sum.inl { s with
          i := ((idxZ N (s.i + 1) : Fin N) : ℤ)
          apexIdx := (s.apexIdx + 1) % A.length }
      else
        Sum.inr s
  else
    let im1 := idxZ N (s.i - 1)
    let ap := (s.v (idxZ N s.i)) ^ 2 / r im1
    if s.v im1 = 0 then
      let res := calc_velocity c ds (s.v (idxZ N s.i)) ap (s.gear (idxZ N s.i)) (r im1)
      Sum.inl { s with
        v := Function.update s.v im1 res.1
        gear := Function.update s.gear im1 res.2.1
        energy := Function.update s.energy im1 res.2.2.1
        time := Function.update s.time im1 res.2.2.2
        i := s.i - 1 }
    else
      if c.alim < ap then
        Sum.inl { s with
          braking := false
          i := ((A.getD s.apexIdx (idxZ N 0) : Fin N) : ℤ) }
      else
        let res := calc_velocity c ds (s.v (idxZ N s.i)) ap (s.gear (idxZ N s.i)) (r im1)
        if res.1 < s.v im1 then
          Sum.inl { s with
            v := Function.update s.v im1 res.1
            gear := Function.update s.gear im1 res.2.1
            energy := Function.update s.energy im1 res.2.2.1
            time := Function.update s.time im1 res.2.2.2
            i := s.i - 1 }
        else
          Sum.inl { s with
            braking := false
            i := ((A.getD s.apexIdx (idxZ N 0) : Fin N) : ℤ) }

/-- The fueled `while i < self.steps` loop.  The source imposes no
iteration cap: `none` means the allotted fuel ran out with the loop still
going (the reference code would still be looping). -/
def gvl_run {N : ℕ} [NeZero N] (c : Car) (ds : ℝ) (r : Fin N → ℝ) (A : List (Fin N)) :
    ℕ → GVLState N → Option (GVLState N)
  | 0, _ => none
  | fuel + 1, s =>
    if s.i < (N : ℤ) then
      match gvl_step c ds r A s with
      | Sum.inl s' => gvl_run c ds r A fuel s'
      | Sum.inr s' => some s'
    else some s

/-- `e_apex` (source lines 288–301): apex-segment energy/time from the
fixed entry/exit speeds.  The source reads `v[i+1]` on the length-`N`
numpy arrays with no wraparound, so an apex at index `N-1` raises
`IndexError`: the embedding returns `none` in that case (and the
exception aborts the remaining iterations, as `Option.bind` does). -/
def e_apex {N : ℕ} (c : Car) (ds : ℝ) (A : List (Fin N)) (v : Fin N → ℝ)
    (gear : Fin N → ℕ) (energy : Fin N → ℝ × ℝ) (time : Fin N → ℝ) :
    Option ((Fin N → ℝ × ℝ) × (Fin N → ℝ)) :=
  A.foldl
    (fun acc (i : Fin N) => acc.bind (fun et =>
      if h : i.val + 1 < N then
        let a := ((v ⟨i.val + 1, h⟩) ^ 2 - (v i) ^ 2) / (2 * ds)
        let t := (v ⟨i.val + 1, h⟩ - v i) / a
        let p_ICE := c.m * a * v i * (c.hybrid * c.power_split)
        let p_EM := c.m * a * v i - p_ICE
        let e_ICE := calc_fuel c (gear i) (v i) p_ICE t
        let e_EM := p_EM * t / (c.motor.eta / 100)
        some (Function.update et.1 i (e_ICE, e_EM), Function.update et.2 i t)
      else none))
    (some (energy, time))

/-- The deceleration zeroing (source lines 265–266):
`energy_list[np.where(sign(v - roll(v,-1)) == 1)] = [0,0]`. -/
def dec_zero {N : ℕ} [NeZero N] (v : Fin N → ℝ) (energy : Fin N → ℝ × ℝ) :
    Fin N → ℝ × ℝ :=
  fun j => if v j - v (idxZ N ((j : ℤ) + 1)) > 0 then (0, 0) else energy j

/-- `get_velocity_list` (source lines 197–268): run the loop from the
apex-initialized state, then apply the apex energy pass and the
deceleration zeroing.  Returns `(v, gear, energy, time)`; `none` when no
value is produced — the fuel ran out with the loop still going (the
reference loop would still be running) or `e_apex` raised `IndexError`. -/
def get_velocity_list {N : ℕ} [NeZero N] (c : Car) (ds : ℝ) (r : Fin N → ℝ)
    (A : List (Fin N)) (fuel : ℕ) :
    Option ((Fin N → ℝ) × (Fin N → ℕ) × (Fin N → ℝ × ℝ) × (Fin N → ℝ)) :=
  (gvl_run c ds r A fuel (initState c r A)).bind (fun s =>
    (e_apex c ds A s.v s.gear s.energy s.time).map (fun et =>
      (s.v, s.gear, dec_zero s.v et.1, et.2)))

/-! ## C1: the per-sample speed bounds -/

/-- The wheel-speed ceiling the powertrain model imposes for a given gear:
`min(motor maxrpm / final drive, engine maxrpm / gear ratios)` for hybrid
cars (`v_lim_hybrid` lines 403–405), `motor maxrpm / final drive` for
electric cars (`v_lim_electric` line 431), converted to a wheel speed as
`maxrpm/60*(wheel_radius*0.0254*2*pi)`. -/
def rpmCeilSpeed (c : Car) (gear : ℕ) : ℝ :=
  (if c.hybrid = 1 then
    min (c.motor.maxrpm / c.motor.trans)
      (c.engine.maxrpm / (c.engine.trans.getD (gear + 1) 0 * c.engine.trans.getD 0 0 *
        c.engine.trans.getD 1 0))
   else c.motor.maxrpm / c.motor.trans) / 60 * (c.wheel_radius * 0.0254 * 2 * Real.pi)

/-- The rpm ceiling `v_lim_hybrid` returns is the ceiling of the gear it
returns. -/
theorem v_lim_hybrid_maxrpm (c : Car) (vin : ℝ) (gear : ℕ) (rpm0 : ℝ) :
    (v_lim_hybrid c vin gear rpm0).2.1 =
      min (c.motor.maxrpm / c.motor.trans)
        (c.engine.maxrpm / (c.engine.trans.getD ((v_lim_hybrid c vin gear rpm0).2.2 + 1) 0 *
          c.engine.trans.getD 0 0 * c.engine.trans.getD 1 0)) := by
  rfl

/-- The `apexLim` rpm ceiling is the `rpmCeilSpeed` ceiling of the
`apexLim` gear. -/
theorem apexSpeedCeil_eq (c : Car) (rc : ℝ) :
    apexSpeedCeil c rc = rpmCeilSpeed c (apexLim c rc).2 := by
  rw [apexSpeedCeil, rpmCeilSpeed, apexLim]
  split
  · rw [v_lim_hybrid_maxrpm]
  · rfl

/-- The velocity `calc_velocity` returns never exceeds the lateral
traction bound `sqrt(alim * roc)` of the sample it resolves. -/
theorem calc_velocity_le_trac (c : Car) (ds vin ap : ℝ) (gear : ℕ) (roc : ℝ) :
    (calc_velocity c ds vin ap gear roc).1 ≤ Real.sqrt (c.alim * roc) := by
  simp only [calc_velocity]
  exact min_le_right _ _

/-- The velocity `calc_velocity` returns never exceeds the wheel-speed
ceiling of the gear it returns. -/
theorem calc_velocity_le_rpm (c : Car) (ds vin ap : ℝ) (gear : ℕ) (roc : ℝ) :
    (calc_velocity c ds vin ap gear roc).1 ≤
      rpmCeilSpeed c (calc_velocity c ds vin ap gear roc).2.1 := by
  simp only [calc_velocity, rpmCeilSpeed]
  split
  · rw [v_lim_hybrid_maxrpm]
    exact le_trans (min_le_left _ _) (min_le_right _ _)
  · exact le_trans (min_le_left _ _) (min_le_right _ _)

/-- Nonnegativity of the car parameters entering the speed ceilings. -/
def Car.Nonneg (c : Car) : Prop :=
  0 ≤ c.mu ∧ 0 ≤ c.wheel_radius ∧ 0 ≤ c.motor.maxrpm ∧ 0 ≤ c.motor.trans ∧
  0 ≤ c.engine.maxrpm ∧ ∀ k, 0 ≤ c.engine.trans.getD k 0

theorem rpmCeilSpeed_nonneg {c : Car} (hc : c.Nonneg) (gear : ℕ) :
    0 ≤ rpmCeilSpeed c gear := by
  obtain ⟨-, hw, hmm, hmt, hem, het⟩ := hc
  have hconv : 0 ≤ c.wheel_radius * 0.0254 * 2 * Real.pi := by
    have := Real.pi_nonneg
    positivity
  rw [rpmCeilSpeed]
  split
  · refine mul_nonneg (div_nonneg (le_min (div_nonneg hmm hmt) ?_) (by norm_num)) hconv
    exact div_nonneg hem (mul_nonneg (mul_nonneg (het _) (het 0)) (het 1))
  · exact mul_nonneg (div_nonneg (div_nonneg hmm hmt) (by norm_num)) hconv

/-- Evaluation of a fold that updates a pair of arrays at the listed
indices with values depending only on the index (the shape of `v_apex`):
the last write wins, and writes at the same index agree. -/
theorem foldl_update_pair_apply {N : ℕ} {α β : Type} (A : List (Fin N))
    (f : Fin N → α) (h : Fin N → β) (init1 : Fin N → α) (init2 : Fin N → β) (j : Fin N) :
    ((A.foldl (fun vg i => (Function.update vg.1 i (f i), Function.update vg.2 i (h i)))
      (init1, init2)).1 j = if j ∈ A then f j else init1 j) ∧
    ((A.foldl (fun vg i => (Function.update vg.1 i (f i), Function.update vg.2 i (h i)))
      (init1, init2)).2 j = if j ∈ A then h j else init2 j) := by
  induction A generalizing init1 init2 with
  | nil => simp
  | cons a A ih =>
    rw [List.foldl_cons]
    have hih := ih (Function.update init1 a (f a)) (Function.update init2 a (h a))
    constructor
    · rw [hih.1]
      by_cases hj : j ∈ A
      · simp [hj]
      · by_cases hja : j = a
        · subst hja
          simp [hj]
        · simp [hj, hja, Function.update_noteq hja]
    · rw [hih.2]
      by_cases hj : j ∈ A
      · simp [hj]
      · by_cases hja : j = a
        · subst hja
          simp [hj]
        · simp [hj, hja, Function.update_noteq hja]

/-- Pointwise evaluation of `v_apex`. -/
theorem v_apex_apply {N : ℕ} (c : Car) (r : Fin N → ℝ) (A : List (Fin N)) (j : Fin N) :
    ((v_apex c r A).1 j = if j ∈ A then
        min (Real.sqrt (c.mu * g * r j)) (apexSpeedCeil c (r j)) else 0) ∧
    ((v_apex c r A).2 j = if j ∈ A then (apexLim c (r j)).2 else 0) :=
  foldl_update_pair_apply A _ _ _ _ j

/-- The C1 invariant: every sample speed is below the lateral-traction
bound of its own radius, and below the rpm ceiling of its recorded gear —
except possibly at index 0, whose recorded gear was forced to 1 while its
speed was resolved against the apex gear `g0`. -/
def Inv {N : ℕ} [NeZero N] (c : Car) (r : Fin N → ℝ) (g0 : ℕ) (s : GVLState N) : Prop :=
  ∀ j, s.v j ≤ Real.sqrt (c.alim * r j) ∧
    (s.v j ≤ rpmCeilSpeed c (s.gear j) ∨
     (j = idxZ N 0 ∧ s.v j ≤ rpmCeilSpeed c g0))

theorem Inv_update {N : ℕ} [NeZero N] {c : Car} {r : Fin N → ℝ} {g0 : ℕ}
    {s : GVLState N} (hs : Inv c r g0 s) (w : Fin N)
    {vw : ℝ} {gw : ℕ} (h1 : vw ≤ Real.sqrt (c.alim * r w)) (h2 : vw ≤ rpmCeilSpeed c gw)
    (e : Fin N → ℝ × ℝ) (t : Fin N → ℝ) (i : ℤ) (a : ℕ) (b : Bool) :
    Inv c r g0 { v := Function.update s.v w vw, gear := Function.update s.gear w gw,
                 energy := e, time := t, i := i, apexIdx := a, braking := b } := by
  intro j
  by_cases hj : j = w
  · subst hj
    simp only [Function.update_same]
    exact ⟨h1, Or.inl h2⟩
  · simp only [Function.update_noteq hj]
    exact hs j

theorem Inv_of_eq {N : ℕ} [NeZero N] {c : Car} {r : Fin N → ℝ} {g0 : ℕ}
    {s s' : GVLState N} (hv : s'.v = s.v) (hg : s'.gear = s.gear) (hs : Inv c r g0 s) :
    Inv c r g0 s' := by
  intro j
  rw [hv, hg]
  exact hs j

/-- Every state the loop body can produce from an invariant state is
invariant: the only velocity/gear writes are `calc_velocity` results,
bounded by `calc_velocity_le_trac` / `calc_velocity_le_rpm` at exactly the
written sample. -/
theorem gvl_step_preserves {N : ℕ} [NeZero N] (c : Car) (ds : ℝ) (r : Fin N → ℝ)
    (A : List (Fin N)) {g0 : ℕ} {s : GVLState N} (hs : Inv c r g0 s) :
    ∀ s', (gvl_step c ds r A s = Sum.inl s' ∨ gvl_step c ds r A s = Sum.inr s') →
      Inv c r g0 s' := by
  intro s' hstep
  simp only [gvl_step] at hstep
  by_cases hb : s.braking = false
  · rw [if_pos hb] at hstep
    by_cases h0 : s.v (idxZ N (s.i + 1)) = 0
    · rw [if_pos h0] at hstep
      by_cases hap : c.alim > s.v (idxZ N s.i) ^ 2 / r (idxZ N (s.i + 1))
      · rw [if_pos hap] at hstep
        rcases hstep with hstep | hstep
        · obtain rfl := Sum.inl.inj hstep
          exact Inv_update hs _ (calc_velocity_le_trac c ds _ _ _ _)
            (calc_velocity_le_rpm c ds _ _ _ _) _ _ _ _ _
        · simp at hstep
      · rw [if_neg hap] at hstep
        rcases hstep with hstep | hstep
        · obtain rfl := Sum.inl.inj hstep
          exact Inv_of_eq rfl rfl hs
        · simp at hstep
    · rw [if_neg h0] at hstep
      by_cases hmin : Finset.univ.inf' ⟨idxZ N 0, Finset.mem_univ _⟩ s.v = 0
      · rw [if_pos hmin] at hstep
        rcases hstep with hstep | hstep
        · obtain rfl := Sum.inl.inj hstep
          exact Inv_of_eq rfl rfl hs
        · simp at hstep
      · rw [if_neg hmin] at hstep
        rcases hstep with hstep | hstep
        · simp at hstep
        · obtain rfl := Sum.inr.inj hstep
          exact hs
  · rw [if_neg hb] at hstep
    by_cases h0 : s.v (idxZ N (s.i - 1)) = 0
    · rw [if_pos h0] at hstep
      rcases hstep with hstep | hstep
      · obtain rfl := Sum.inl.inj hstep
        exact Inv_update hs _ (calc_velocity_le_trac c ds _ _ _ _)
          (calc_velocity_le_rpm c ds _ _ _ _) _ _ _ _ _
      · simp at hstep
    · rw [if_neg h0] at hstep
      by_cases hap : c.alim < s.v (idxZ N s.i) ^ 2 / r (idxZ N (s.i - 1))
      · rw [if_pos hap] at hstep
        rcases hstep with hstep | hstep
        · obtain rfl := Sum.inl.inj hstep
          exact Inv_of_eq rfl rfl hs
        · simp at hstep
      · rw [if_neg hap] at hstep
        by_cases hlt : (calc_velocity c ds (s.v (idxZ N s.i))
            (s.v (idxZ N s.i) ^ 2 / r (idxZ N (s.i - 1))) (s.gear (idxZ N s.i))
            (r (idxZ N (s.i - 1)))).1 < s.v (idxZ N (s.i - 1))
        · rw [if_pos hlt] at hstep
          rcases hstep with hstep | hstep
          · obtain rfl := Sum.inl.inj hstep
            exact Inv_update hs _ (calc_velocity_le_trac c ds _ _ _ _)
              (calc_velocity_le_rpm c ds _ _ _ _) _ _ _ _ _
          · simp at hstep
        · rw [if_neg hlt] at hstep
          rcases hstep with hstep | hstep
          · obtain rfl := Sum.inl.inj hstep
            exact Inv_of_eq rfl rfl hs
          · simp at hstep

/-- The fueled loop preserves the invariant. -/
theorem gvl_run_preserves {N : ℕ} [NeZero N] (c : Car) (ds : ℝ) (r : Fin N → ℝ)
    (A : List (Fin N)) {g0 : ℕ} (fuel : ℕ) :
    ∀ s : GVLState N, Inv c r g0 s →
      ∀ s', gvl_run c ds r A fuel s = some s' → Inv c r g0 s' := by
  induction fuel with
  | zero =>
    intro s _ s' h
    simp [gvl_run] at h
  | succ fuel ih =>
    intro s hs s' h
    rw [gvl_run] at h
    split_ifs at h with hi
    · rcases hstep : gvl_step c ds r A s with s1 | s1 <;> rw [hstep] at h
      · exact ih s1 (gvl_step_preserves c ds r A hs s1 (Or.inl hstep)) s' h
      · cases h
        exact gvl_step_preserves c ds r A hs s' (Or.inr hstep)
    · cases h
      exact hs

/-- The state entering the loop satisfies the invariant (with `g0` the
apex gear chosen at index 0 before the `gear[0] = 1` forcing). -/
theorem initState_Inv {N : ℕ} [NeZero N] (c : Car) (r : Fin N → ℝ) (A : List (Fin N))
    (hc : c.Nonneg) :
    Inv c r ((v_apex c r A).2 (idxZ N 0)) (initState c r A) := by
  intro j
  have hv := (v_apex_apply c r A j).1
  have hg := (v_apex_apply c r A j).2
  have halim : Real.sqrt (c.mu * g * r j) = Real.sqrt (c.alim * r j) := by
    rw [Car.alim]
    ring_nf
  constructor
  · show (v_apex c r A).1 j ≤ _
    rw [hv]
    split_ifs with hj
    · exact le_trans (min_le_left _ _) (le_of_eq halim)
    · exact Real.sqrt_nonneg _
  · by_cases hj0 : j = idxZ N 0
    · subst hj0
      refine Or.inr ⟨rfl, ?_⟩
      show (v_apex c r A).1 _ ≤ rpmCeilSpeed c ((v_apex c r A).2 _)
      rw [hv, hg]
      split_ifs with hj
      · exact le_trans (min_le_right _ _) (le_of_eq (apexSpeedCeil_eq c _))
      · exact rpmCeilSpeed_nonneg hc _
    · refine Or.inl ?_
      show (v_apex c r A).1 j ≤
        rpmCeilSpeed c (Function.update (v_apex c r A).2 (idxZ N 0) 1 j)
      rw [Function.update_noteq hj0, hv, hg]
      split_ifs with hj
      · exact le_trans (min_le_right _ _) (le_of_eq (apexSpeedCeil_eq c _))
      · exact rpmCeilSpeed_nonneg hc _

/-- C1 (amended): every sample of the profile returned by
`get_velocity_list` is at most the traction-circle bound
`sqrt(mu*g*r[j])` of its own radius, and at most the powertrain rpm-ceiling
wheel speed of its recorded gear — except possibly at index 0, where
`get_velocity_list` forces the recorded gear to 1 after `v_apex` resolved
the speed against the apex gear, so the rpm bound there is guaranteed only
for that apex gear. -/
theorem c1_velocity_bounds {N : ℕ} [NeZero N] (c : Car) (ds : ℝ) (r : Fin N → ℝ)
    (A : List (Fin N)) (fuel : ℕ) (hc : c.Nonneg)
    (out : (Fin N → ℝ) × (Fin N → ℕ) × (Fin N → ℝ × ℝ) × (Fin N → ℝ))
    (hout : get_velocity_list c ds r A fuel = some out) :
    ∀ j, out.1 j ≤ Real.sqrt (c.alim * r j) ∧
      (out.1 j ≤ rpmCeilSpeed c (out.2.1 j) ∨
       (j = idxZ N 0 ∧ out.1 j ≤ rpmCeilSpeed c ((v_apex c r A).2 (idxZ N 0)))) := by
  rw [get_velocity_list] at hout
  rcases hrun : gvl_run c ds r A fuel (initState c r A) with _ | s <;> rw [hrun] at hout
  · cases hout
  · have hInv := gvl_run_preserves c ds r A fuel (initState c r A)
      (initState_Inv c r A hc) s hrun
    rcases hea : e_apex c ds A s.v s.gear s.energy s.time with _ | et <;>
      simp only [Option.some_bind, hea] at hout
    · cases hout
    · have hmap : out = (s.v, s.gear, dec_zero s.v et.1, et.2) := by
        rw [Option.map_some'] at hout
        exact (Option.some.inj hout).symm
      rw [hmap]
      exact hInv

/-! ## C6: apex initialization -/

/-- C6: for every apex index `i`, the state entering the loop has
`v[i] = min(sqrt(mu*g*r[i]), v_rpm)` where `v_rpm = apexSpeedCeil` is the
wheel speed of the powertrain rpm ceiling; the apex gear is the gear the
powertrain model chooses when evaluated at the lateral-traction speed
`sqrt(mu*g*r[i])` (that is what `apexLim` computes, mirroring
`v_lim_hybrid(v_trac, 0, rpm0)` resp. gear 1 for electric cars); and
`get_velocity_list` forces the gear at index 0 to the lowest gear 1
before the loop. -/
theorem c6_apex_initialization {N : ℕ} [NeZero N] (c : Car) (r : Fin N → ℝ)
    (A : List (Fin N)) (i : Fin N) (hi : i ∈ A) :
    (initState c r A).v i =
      min (Real.sqrt (c.mu * g * r i)) (apexSpeedCeil c (r i)) ∧
    (v_apex c r A).2 i = (apexLim c (r i)).2 ∧
    (initState c r A).gear (idxZ N 0) = 1 := by
  refine ⟨?_, ?_, ?_⟩
  · show (v_apex c r A).1 i = _
    rw [(v_apex_apply c r A i).1, if_pos hi]
  · rw [(v_apex_apply c r A i).2, if_pos hi]
  · show Function.update (v_apex c r A).2 (idxZ N 0) 1 (idxZ N 0) = 1
    exact Function.update_same _ _ _

/-- Witness for `c6_apex_initialization`: concrete electric car `c5car`,
constant radius 100, apex list `[0]`. -/
theorem c6_apex_initialization_witness :
    (initState c5car (fun _ : Fin 2 => 100) [0]).v 0 =
      min (Real.sqrt (c5car.mu * g * 100)) (apexSpeedCeil c5car 100) ∧
    (v_apex c5car (fun _ : Fin 2 => 100) [0]).2 0 = (apexLim c5car 100).2 ∧
    (initState c5car (fun _ : Fin 2 => 100) [0]).gear (idxZ 2 0) = 1 :=
  c6_apex_initialization c5car (fun _ => 100) [0] 0 (List.mem_singleton.mpr rfl)

/-! ## The concrete completing run for C1

A hybrid car on a 3-sample track whose apexes are samples 0 and 1 (none
at `N-1`, so the final `e_apex` pass reads only in-bounds entries and
returns a value).  `wheel_radius = 5000/127` makes
`wheel_radius*0.0254 = 1`; `mu = 1`, `r[0] = 40000/981` and
`r[1] = 10000/981` make the lateral-traction speeds exactly 20 and 10.
At both apexes the engine rpm is above `0.95*maxrpm` in every gear, so
`v_lim_hybrid` holds the incoming gear 0 (redline pin) with the large
`trans[1]`-based ceiling; the recorded gear at index 0 is then forced to
1, whose ceiling (gear ratio 100) is far below the stored 20 m/s.  The
loop advances over apex 1, integrates one forward step to sample 2
(`r[2] = 12100/981` keeps it below the traction limit and makes the
lateral candidate `sqrt(alim*roc) = 11` the winner of the four-way
minimum), then faces the already-resolved sample 0 with no zero sample
left and breaks. -/

def c1car : Car :=
  { m := 250, mu := 1, wheel_radius := 5000 / 127, hybrid := 1, power_split := 0.5,
    engine := { minrpm := 1000, maxrpm := 10000, trans := [1, 1, 100, 200],
                power := fun _ => 0, eta00 := 0, eta01 := 0 },
    motor := { torque_max := 100, power_max := 50, maxrpm := 100000, trans := 1, eta := 90 },
    etaInterp := fun _ _ => 5 }

def c1r : Fin 3 → ℝ :=
  fun j => if j = 0 then 40000 / 981 else if j = 1 then 10000 / 981 else 12100 / 981

def c1A : List (Fin 3) := [0, 1]

/-- The state entering the loop on this input. -/
def c1S0 : GVLState 3 :=
  { v := fun j => if j = 0 then 20 else if j = 1 then 10 else 0,
    gear := fun j => if j = 0 then 1 else 0,
    energy := fun _ => (0, 0), time := fun _ => 0,
    i := 0, apexIdx := 0, braking := false }

/-- The state after the first iteration (cursor advanced over apex 1). -/
def c1S1 : GVLState 3 :=
  { v := c1S0.v, gear := c1S0.gear, energy := c1S0.energy, time := c1S0.time,
    i := 1, apexIdx := 1, braking := false }

/-- The single `calc_velocity` call of the run (forward step to sample 2). -/
def c1res : ℝ × ℕ × (ℝ × ℝ) × ℝ :=
  calc_velocity c1car 20 10 ((10 : ℝ) ^ 2 / (12100 / 981)) 0 (12100 / 981)

/-- The state after the forward integration step, in which the loop then
breaks ("reached end of track"). -/
def c1S2 : GVLState 3 :=
  { v := Function.update c1S0.v 2 c1res.1,
    gear := Function.update c1S0.gear 2 c1res.2.1,
    energy := Function.update c1S0.energy 2 c1res.2.2.1,
    time := Function.update c1S0.time 2 c1res.2.2.2,
    i := 2, apexIdx := 1, braking := false }

theorem c1_sqrt : Real.sqrt (c1car.mu * g * (40000 / 981)) = 20 := by
  rw [show c1car.mu * g * (40000 / 981) = 400 by norm_num [c1car, g],
    show (400 : ℝ) = 20 ^ 2 by norm_num, Real.sqrt_sq (by norm_num)]

theorem c1_rpm0 : (20 : ℝ) / (c1car.wheel_radius * 0.0254 * 2 * Real.pi) * 60 =
    600 / Real.pi := by
  have hπ := Real.pi_ne_zero
  rw [show c1car.wheel_radius = 5000 / 127 from rfl]
  field_simp
  ring

theorem c1_rpmList : rpmList c1car (600 / Real.pi) =
    [600 / Real.pi * 100 * 1 * 1, 600 / Real.pi * 200 * 1 * 1] := rfl

theorem c1_v_lim : (v_lim_hybrid c1car 20 0 (600 / Real.pi)).2 = ((10000 : ℝ), 0) := by
  have hπpos := Real.pi_pos
  have h315 := Real.pi_lt_315
  simp only [v_lim_hybrid, c1_rpmList]
  rw [if_neg (by rintro ⟨h, -⟩; exact absurd h (by norm_num))]
  have hfil : (List.range ([600 / Real.pi * 100 * 1 * 1,
      600 / Real.pi * 200 * 1 * 1] : List ℝ).length).filter
      (fun j => decide (c1car.engine.maxrpm * 0.95 >
          ([600 / Real.pi * 100 * 1 * 1, 600 / Real.pi * 200 * 1 * 1] : List ℝ).getD j 0 ∧
        c1car.engine.minrpm <
          ([600 / Real.pi * 100 * 1 * 1, 600 / Real.pi * 200 * 1 * 1] : List ℝ).getD j 0)) =
      [] := by
    rw [List.filter_eq_nil]
    intro a ha
    rw [List.mem_range] at ha
    have ha2 : a < 2 := by simpa using ha
    interval_cases a <;>
    · simp only [decide_eq_true_eq, List.getD_cons_zero, List.getD_cons_succ, not_and,
        gt_iff_lt, not_lt]
      intro h
      exfalso
      rw [show c1car.engine.maxrpm = 10000 from rfl] at h
      rw [div_mul_eq_mul_div, div_mul_eq_mul_div, div_mul_eq_mul_div,
        div_lt_iff hπpos] at h
      nlinarith
  rw [hfil]
  simp only [List.head?_nil]
  norm_num [c1car]

theorem c1_apexLim : apexLim c1car (40000 / 981) = ((10000 : ℝ), 0) := by
  simp only [apexLim, c1_sqrt, c1_rpm0]
  rw [if_pos (show c1car.hybrid = 1 from rfl)]
  rw [show (v_lim_hybrid c1car 20 0 (600 / Real.pi)).2.1 =
      ((v_lim_hybrid c1car 20 0 (600 / Real.pi)).2).1 from rfl,
    show (v_lim_hybrid c1car 20 0 (600 / Real.pi)).2.2 =
      ((v_lim_hybrid c1car 20 0 (600 / Real.pi)).2).2 from rfl, c1_v_lim]

theorem c1_vmin : min (Real.sqrt (c1car.mu * g * (40000 / 981)))
    (apexSpeedCeil c1car (40000 / 981)) = 20 := by
  rw [c1_sqrt, apexSpeedCeil, c1_apexLim]
  refine min_eq_left ?_
  have h3 := Real.pi_gt_three
  rw [show c1car.wheel_radius * 0.0254 = 1 by norm_num [c1car]]
  nlinarith

theorem c1_sqrt1 : Real.sqrt (c1car.mu * g * (10000 / 981)) = 10 := by
  rw [show c1car.mu * g * (10000 / 981) = 100 by norm_num [c1car, g],
    show (100 : ℝ) = 10 ^ 2 by norm_num, Real.sqrt_sq (by norm_num)]

theorem c1_rpm0b : (10 : ℝ) / (c1car.wheel_radius * 0.0254 * 2 * Real.pi) * 60 =
    300 / Real.pi := by
  have hπ := Real.pi_ne_zero
  rw [show c1car.wheel_radius = 5000 / 127 from rfl]
  field_simp
  ring

theorem c1_rpmList10 : rpmList c1car (300 / Real.pi) =
    [300 / Real.pi * 100 * 1 * 1, 300 / Real.pi * 200 * 1 * 1] := rfl

theorem c1_v_lim10 : v_lim_hybrid c1car 10 0 (300 / Real.pi) =
    ((0.5424 : ℝ), (10000 : ℝ), (0 : ℕ)) := by
  have hπpos := Real.pi_pos
  have h315 := Real.pi_lt_315
  simp only [v_lim_hybrid, c1_rpmList10]
  rw [if_neg (show ¬((0 : ℕ) = 1 ∧
      ([300 / Real.pi * 100 * 1 * 1, 300 / Real.pi * 200 * 1 * 1] : List ℝ).getD 0 0 <
        c1car.engine.minrpm) by rintro ⟨h, -⟩; exact absurd h (by norm_num))]
  have hfil : (List.range ([300 / Real.pi * 100 * 1 * 1,
      300 / Real.pi * 200 * 1 * 1] : List ℝ).length).filter
      (fun j => decide (c1car.engine.maxrpm * 0.95 >
          ([300 / Real.pi * 100 * 1 * 1, 300 / Real.pi * 200 * 1 * 1] : List ℝ).getD j 0 ∧
        c1car.engine.minrpm <
          ([300 / Real.pi * 100 * 1 * 1, 300 / Real.pi * 200 * 1 * 1] : List ℝ).getD j 0)) =
      [] := by
    rw [List.filter_eq_nil]
    intro a ha
    rw [List.mem_range] at ha
    have ha2 : a < 2 := by simpa using ha
    interval_cases a <;>
    · simp only [decide_eq_true_eq, List.getD_cons_zero, List.getD_cons_succ, not_and,
        gt_iff_lt, not_lt]
      intro h
      exfalso
      rw [show c1car.engine.maxrpm = 10000 from rfl] at h
      rw [div_mul_eq_mul_div, div_mul_eq_mul_div, div_mul_eq_mul_div,
        div_lt_iff hπpos] at h
      nlinarith
  rw [hfil]
  simp only [List.head?_nil]
  rw [if_pos (show c1car.engine.maxrpm / 60 * (2 * Real.pi) ≠ 0 by
    rw [show c1car.engine.maxrpm = (10000 : ℝ) from rfl]
    positivity)]
  norm_num [c1car]

theorem c1_apexLim1 : apexLim c1car (10000 / 981) = ((10000 : ℝ), 0) := by
  simp only [apexLim, c1_sqrt1, c1_rpm0b]
  rw [if_pos (show c1car.hybrid = 1 from rfl), c1_v_lim10]

theorem c1_vmin1 : min (Real.sqrt (c1car.mu * g * (10000 / 981)))
    (apexSpeedCeil c1car (10000 / 981)) = 10 := by
  rw [c1_sqrt1, apexSpeedCeil, c1_apexLim1]
  refine min_eq_left ?_
  have h3 := Real.pi_gt_three
  rw [show c1car.wheel_radius * 0.0254 = 1 by norm_num [c1car]]
  nlinarith

theorem c1_init : initState c1car c1r c1A = c1S0 := by
  have hv : (v_apex c1car c1r c1A).1 = c1S0.v := by
    funext j
    rw [(v_apex_apply c1car c1r c1A j).1]
    fin_cases j
    · rw [if_pos (by decide)]
      exact c1_vmin
    · rw [if_pos (by decide)]
      exact c1_vmin1
    · rw [if_neg (by decide)]
      rfl
  have hg : Function.update (v_apex c1car c1r c1A).2 (idxZ 3 0) 1 = c1S0.gear := by
    funext j
    by_cases hj : j = idxZ 3 0
    · subst hj
      rw [Function.update_same]
      rfl
    · rw [Function.update_noteq hj, (v_apex_apply c1car c1r c1A j).2]
      fin_cases j
      · exact absurd rfl hj
      · rw [if_pos (by decide)]
        show (apexLim c1car (10000 / 981)).2 = c1S0.gear 1
        rw [c1_apexLim1]
        rfl
      · rw [if_neg (by decide)]
        rfl
  rw [initState, hv, hg]
  rfl

/-- Evaluation of the run's single `calc_velocity` call: the lateral
candidate `sqrt(alim*roc) = 11` wins the four-way minimum (the traction
and torque candidates exceed 11, the rpm candidate is about 1047). -/
theorem c1_res_v : c1res.1 = 11 := by
  have hπpos := Real.pi_pos
  have h3 := Real.pi_gt_three
  show (calc_velocity c1car 20 10 ((10 : ℝ) ^ 2 / (12100 / 981)) 0 (12100 / 981)).1 = 11
  rw [show ((10 : ℝ) ^ 2 / (12100 / 981)) = 981 / 121 by norm_num]
  simp only [calc_velocity]
  rw [if_pos (show c1car.hybrid = 1 from rfl)]
  rw [c1_rpm0b, c1_v_lim10]
  rw [show (((0.5424 : ℝ), (10000 : ℝ), (0 : ℕ)) : ℝ × ℝ × ℕ).1 = 0.5424 from rfl,
    show (((0.5424 : ℝ), (10000 : ℝ), (0 : ℕ)) : ℝ × ℝ × ℕ).2.1 = 10000 from rfl]
  rw [show c1car.alim = 9.81 by norm_num [Car.alim, g, c1car]]
  have htl : Real.sqrt ((9.81 : ℝ) * (12100 / 981)) = 11 := by
    rw [show (9.81 : ℝ) * (12100 / 981) = 121 by norm_num,
      show (121 : ℝ) = 11 ^ 2 by norm_num, Real.sqrt_sq (by norm_num)]
  rw [htl]
  rw [show c1car.wheel_radius * 0.0254 = 1 by norm_num [c1car]]
  have hQ : (21 / 40 : ℝ) < Real.sqrt ((9.81 : ℝ) ^ 2 - (981 / 121) ^ 2) := by
    rw [show ((9.81 : ℝ) ^ 2 - (981 / 121) ^ 2) = 4466317401 / 146410000 by norm_num]
    rw [Real.lt_sqrt (by norm_num)]
    norm_num
  have htrac : (11 : ℝ) <
      Real.sqrt (2 * Real.sqrt ((9.81 : ℝ) ^ 2 - (981 / 121) ^ 2) * 20 + 10 ^ 2) := by
    rw [Real.lt_sqrt (by norm_num)]
    nlinarith [hQ]
  have htor : (11 : ℝ) < Real.sqrt (2 * 0.5424 * 20 + 10 ^ 2) := by
    rw [show (2 : ℝ) * 0.5424 * 20 + 10 ^ 2 = 121.696 by norm_num,
      Real.lt_sqrt (by norm_num)]
    norm_num
  have hrpm : (11 : ℝ) < 10000 / 60 * (1 * 2 * Real.pi) := by nlinarith
  rw [min_eq_right (le_min (le_min htrac.le htor.le) hrpm.le)]

theorem c1_step1 : gvl_step c1car 20 c1r c1A c1S0 = Sum.inl c1S1 := by
  simp only [gvl_step]
  rw [if_pos (show c1S0.braking = false from rfl)]
  rw [if_neg (show ¬(c1S0.v (idxZ 3 (c1S0.i + 1)) = 0) by
    rw [show c1S0.v (idxZ 3 (c1S0.i + 1)) = 10 from rfl]; norm_num)]
  rw [if_pos (show Finset.univ.inf' ⟨idxZ 3 0, Finset.mem_univ _⟩ c1S0.v = 0 by
    refine le_antisymm (le_trans (Finset.inf'_le c1S0.v (Finset.mem_univ (2 : Fin 3)))
      (le_of_eq rfl)) ?_
    refine Finset.le_inf' _ _ ?_
    intro j _
    fin_cases j
    · exact le_of_le_of_eq (by norm_num) (rfl : (20 : ℝ) = _)
    · exact le_of_le_of_eq (by norm_num) (rfl : (10 : ℝ) = _)
    · exact le_of_eq rfl)]
  rfl

theorem c1_ap_lt : c1car.alim > c1S1.v (idxZ 3 c1S1.i) ^ 2 / c1r (idxZ 3 (c1S1.i + 1)) := by
  rw [show c1S1.v (idxZ 3 c1S1.i) = 10 from rfl,
    show c1r (idxZ 3 (c1S1.i + 1)) = 12100 / 981 from rfl,
    show c1car.alim = 9.81 by norm_num [Car.alim, g, c1car]]
  norm_num

theorem c1_step2 : gvl_step c1car 20 c1r c1A c1S1 = Sum.inl c1S2 := by
  simp only [gvl_step]
  rw [if_pos (show c1S1.braking = false from rfl)]
  rw [if_pos (show c1S1.v (idxZ 3 (c1S1.i + 1)) = 0 from rfl)]
  rw [if_pos c1_ap_lt]
  rfl

theorem c1_v2 : c1S2.v 2 = 11 := by
  rw [show c1S2.v 2 = c1res.1 from rfl, c1_res_v]

theorem c1_inf_S2 : ¬(Finset.univ.inf' ⟨idxZ 3 0, Finset.mem_univ _⟩ c1S2.v = 0) := by
  have hpos : (0 : ℝ) < Finset.univ.inf' ⟨idxZ 3 0, Finset.mem_univ _⟩ c1S2.v := by
    rw [Finset.lt_inf'_iff]
    intro j _
    fin_cases j
    · exact lt_of_lt_of_eq (by norm_num : (0 : ℝ) < 20) rfl
    · exact lt_of_lt_of_eq (by norm_num : (0 : ℝ) < 10) rfl
    · exact lt_of_lt_of_eq (by norm_num : (0 : ℝ) < 11) c1_v2.symm
  exact ne_of_gt hpos

theorem c1_step3 : gvl_step c1car 20 c1r c1A c1S2 = Sum.inr c1S2 := by
  simp only [gvl_step]
  rw [if_pos (show c1S2.braking = false from rfl)]
  rw [if_neg (show ¬(c1S2.v (idxZ 3 (c1S2.i + 1)) = 0) by
    rw [show c1S2.v (idxZ 3 (c1S2.i + 1)) = 20 from rfl]; norm_num)]
  rw [if_neg c1_inf_S2]

theorem c1_run : gvl_run c1car 20 c1r c1A 3 c1S0 = some c1S2 := by
  rw [gvl_run, if_pos (show c1S0.i < ((3 : ℕ) : ℤ) by norm_num [c1S0]), c1_step1]
  show gvl_run c1car 20 c1r c1A 2 c1S1 = some c1S2
  rw [gvl_run, if_pos (show c1S1.i < ((3 : ℕ) : ℤ) by norm_num [c1S1]), c1_step2]
  show gvl_run c1car 20 c1r c1A 1 c1S2 = some c1S2
  rw [gvl_run, if_pos (show c1S2.i < ((3 : ℕ) : ℤ) by norm_num [c1S2]), c1_step3]

/-- The apex energy/time pass of the run: both apexes read only in-bounds
entries (`v[1]`, `v[2]`), so `e_apex` returns a value. -/
def c1et : (Fin 3 → ℝ × ℝ) × (Fin 3 → ℝ) :=
  (e_apex c1car 20 c1A c1S2.v c1S2.gear c1S2.energy c1S2.time).getD
    (fun _ => (0, 0), fun _ => 0)

theorem c1_e_apex :
    e_apex c1car 20 c1A c1S2.v c1S2.gear c1S2.energy c1S2.time = some c1et := rfl

/-- The profile `get_velocity_list` returns on the `c1car` input. -/
def c1out : (Fin 3 → ℝ) × (Fin 3 → ℕ) × (Fin 3 → ℝ × ℝ) × (Fin 3 → ℝ) :=
  (c1S2.v, c1S2.gear, dec_zero c1S2.v c1et.1, c1et.2)

theorem c1_gvl_eval : get_velocity_list c1car 20 c1r c1A 3 = some c1out := by
  rw [get_velocity_list, c1_init, c1_run]
  show (e_apex c1car 20 c1A c1S2.v c1S2.gear c1S2.energy c1S2.time).map
    (fun et => (c1S2.v, c1S2.gear, dec_zero c1S2.v et.1, et.2)) = some c1out
  rw [c1_e_apex]
  rfl

/-- C1 (counterexample): on the hybrid input above the run completes (the
apex list avoids `N-1`, so `e_apex` raises no `IndexError`) and the
returned profile stores `v[0] = 20` with recorded gear `gear[0] = 1` (the
forced lowest gear), but the powertrain rpm-ceiling wheel speed for gear 1
is `10π/3 ≈ 10.5 < 20`: the sample exceeds the rpm bound of the gear in
use at that sample, falsifying the claim as stated. -/
theorem c1_counterexample :
    get_velocity_list c1car 20 c1r c1A 3 = some c1out ∧
    c1out.2.1 0 = 1 ∧ c1out.1 0 = 20 ∧
    rpmCeilSpeed c1car (c1out.2.1 0) < c1out.1 0 := by
  refine ⟨c1_gvl_eval, rfl, rfl, ?_⟩
  rw [show c1out.2.1 0 = 1 from rfl, show c1out.1 0 = 20 from rfl]
  rw [rpmCeilSpeed, if_pos (show c1car.hybrid = 1 from rfl)]
  rw [show c1car.engine.trans.getD (1 + 1) 0 = 100 from rfl,
    show c1car.engine.trans.getD 0 0 = 1 from rfl,
    show c1car.engine.trans.getD 1 0 = 1 from rfl,
    show c1car.motor.maxrpm = 100000 from rfl,
    show c1car.motor.trans = 1 from rfl,
    show c1car.engine.maxrpm = 10000 from rfl,
    show c1car.wheel_radius * 0.0254 = 1 by norm_num [c1car]]
  have h315 := Real.pi_lt_315
  have hπpos := Real.pi_pos
  rw [show min ((100000 : ℝ) / 1) (10000 / (100 * 1 * 1)) = 100 by norm_num]
  nlinarith

theorem c1_nonneg : c1car.Nonneg := by
  refine ⟨by norm_num [c1car], by norm_num [c1car], by norm_num [c1car],
    by norm_num [c1car], by norm_num [c1car], ?_⟩
  intro k
  match k with
  | 0 => norm_num [c1car]
  | 1 => norm_num [c1car]
  | 2 => norm_num [c1car]
  | 3 => norm_num [c1car]
  | (n + 4) =>
    rw [List.getD_eq_default]
    simp [c1car]

/-- Witness for `c1_velocity_bounds` at sample 1 of the concrete run. -/
theorem c1_velocity_bounds_witness :
    c1out.1 1 ≤ Real.sqrt (c1car.alim * c1r 1) ∧
    (c1out.1 1 ≤ rpmCeilSpeed c1car (c1out.2.1 1) ∨
     ((1 : Fin 3) = idxZ 3 0 ∧
      c1out.1 1 ≤ rpmCeilSpeed c1car ((v_apex c1car c1r c1A).2 (idxZ 3 0)))) :=
  c1_velocity_bounds c1car 20 c1r c1A 3 c1_nonneg c1out c1_gvl_eval 1

/-! ## C2: no iteration cap, no `ConvergenceError` -/

/-- C2 (amended): the loop has no cap mechanism; it stops only through its
own exit conditions.  When the forward cursor faces an already-resolved
sample and no zero sample remains, the `break` ("reached end of track")
fires on the next iteration and `gvl_run` returns the state unchanged with
any positive fuel. -/
theorem c2_terminates_on_break {N : ℕ} [NeZero N] (c : Car) (ds : ℝ) (r : Fin N → ℝ)
    (A : List (Fin N)) (s : GVLState N) (fuel : ℕ)
    (hbr : s.braking = false) (hi : s.i < (N : ℤ))
    (hnext : ¬(s.v (idxZ N (s.i + 1)) = 0))
    (hmin : ¬(Finset.univ.inf' ⟨idxZ N 0, Finset.mem_univ _⟩ s.v = 0)) :
    gvl_run c ds r A (fuel + 1) s = some s := by
  rw [gvl_run, if_pos hi]
  have hstep : gvl_step c ds r A s = Sum.inr s := by
    simp only [gvl_step]
    rw [if_pos hbr, if_neg hnext, if_neg hmin]
  rw [hstep]

/-- A forward state with every sample already resolved, on the `c1car`
track: the break fires on its first iteration (`gvl_step` reads none of
the track parameters on this path). -/
def c2B : GVLState 3 :=
  { v := fun _ => 20, gear := fun _ => 1, energy := fun _ => (0, 0), time := fun _ => 0,
    i := 0, apexIdx := 0, braking := false }

/-- Witness for `c2_terminates_on_break`: a concrete immediate-break
state. -/
theorem c2_terminates_on_break_witness :
    gvl_run c1car 20 c1r c1A (0 + 1) c2B = some c2B :=
  c2_terminates_on_break c1car 20 c1r c1A c2B 0 rfl (by norm_num [c2B])
    (by rw [show c2B.v (idxZ 3 (c2B.i + 1)) = 20 from rfl]; norm_num)
    (by
      rw [show c2B.v = fun _ => (20 : ℝ) from rfl, Finset.inf'_const _ _]
      norm_num)

/-- Electric car whose motor rpm ceiling is zero: every computed velocity
is `min(..., v_rpm) = 0`, so no sample ever becomes nonzero and the
forward pass orbits the circular index space forever. -/
def c2car : Car :=
  { m := 250, mu := 1, wheel_radius := 5000 / 127, hybrid := 0, power_split := 0,
    engine := engine0,
    motor := { torque_max := 100, power_max := 50, maxrpm := 0, trans := 1, eta := 90 },
    etaInterp := fun _ _ => 0 }

def c2r : Fin 2 → ℝ := fun _ => 100

def c2A : List (Fin 2) := [0]

/-- With a zero rpm ceiling every `calc_velocity` result velocity is `0`
(the `v_rpm` candidate wins the four-way minimum), whatever the incoming
gear, lateral demand and radius. -/
theorem c2_calc_velocity_zero (gr : ℕ) (ap roc : ℝ) :
    (calc_velocity c2car 20 0 ap gr roc).1 = 0 := by
  simp only [calc_velocity]
  rw [if_neg (show ¬(c2car.hybrid = 1) by norm_num [c2car])]
  rw [zero_div, zero_mul]
  rw [show (v_lim_electric c2car 0 0).2 = 0 by
    rw [v_lim_electric]
    norm_num [c2car]]
  rw [show (((v_lim_electric c2car 0 0).1, (0 : ℝ), (1 : ℕ)) : ℝ × ℝ × ℕ).2.1 = 0
    from rfl]
  rw [zero_div, zero_mul]
  rw [min_eq_right (le_min (Real.sqrt_nonneg _) (Real.sqrt_nonneg _)),
    min_eq_left (Real.sqrt_nonneg _)]

/-- The nontermination invariant for the `c2car` input: forward state,
cursor at 0 or 1, all velocities zero. -/
def c2Spin (s : GVLState 2) : Prop :=
  s.braking = false ∧ (s.i = 0 ∨ s.i = 1) ∧ s.v = fun _ => 0

theorem c2_step_spin (s : GVLState 2) (hP : c2Spin s) :
    ∃ s', gvl_step c2car 20 c2r c2A s = Sum.inl s' ∧ c2Spin s' := by
  obtain ⟨v, gear, energy, time, i, aidx, br⟩ := s
  obtain ⟨hbr, hi, hv⟩ := hP
  simp only at hbr hi hv
  subst hbr hv
  refine ⟨⟨Function.update (fun _ => (0 : ℝ)) (idxZ 2 (i + 1))
        (calc_velocity c2car 20 0 ((0 : ℝ) ^ 2 / c2r (idxZ 2 (i + 1)))
          (gear (idxZ 2 i)) (c2r (idxZ 2 (i + 1)))).1,
      Function.update gear (idxZ 2 (i + 1))
        (calc_velocity c2car 20 0 ((0 : ℝ) ^ 2 / c2r (idxZ 2 (i + 1)))
          (gear (idxZ 2 i)) (c2r (idxZ 2 (i + 1)))).2.1,
      Function.update energy (idxZ 2 (i + 1))
        (calc_velocity c2car 20 0 ((0 : ℝ) ^ 2 / c2r (idxZ 2 (i + 1)))
          (gear (idxZ 2 i)) (c2r (idxZ 2 (i + 1)))).2.2.1,
      Function.update time (idxZ 2 (i + 1))
        (calc_velocity c2car 20 0 ((0 : ℝ) ^ 2 / c2r (idxZ 2 (i + 1)))
          (gear (idxZ 2 i)) (c2r (idxZ 2 (i + 1)))).2.2.2,
      ((idxZ 2 (i + 1) : Fin 2) : ℤ), aidx, false⟩, ?_, ?_⟩
  · show gvl_step c2car 20 c2r c2A _ = Sum.inl _
    simp only [gvl_step, if_true]
    rw [if_pos (show c2car.alim > (0 : ℝ) ^ 2 / c2r (idxZ 2 (i + 1)) by
      norm_num [Car.alim, g, c2car, c2r])]
  · refine ⟨rfl, ?_, ?_⟩
    · show (((idxZ 2 (i + 1) : Fin 2) : ℤ) = 0 ∨ ((idxZ 2 (i + 1) : Fin 2) : ℤ) = 1)
      rcases hi with h | h <;> rw [h]
      · right
        rfl
      · left
        rfl
    · show Function.update (fun _ => (0 : ℝ)) (idxZ 2 (i + 1))
        (calc_velocity c2car 20 0 ((0 : ℝ) ^ 2 / c2r (idxZ 2 (i + 1))) (gear (idxZ 2 i))
          (c2r (idxZ 2 (i + 1)))).1 = fun _ => 0
      rw [c2_calc_velocity_zero]
      funext j
      by_cases hj : j = idxZ 2 (i + 1)
      · subst hj
        exact Function.update_same _ _ _
      · exact Function.update_noteq hj _ _

theorem c2_run_spin : ∀ (fuel : ℕ) (s : GVLState 2), c2Spin s →
    gvl_run c2car 20 c2r c2A fuel s = none := by
  intro fuel
  induction fuel with
  | zero =>
    intro s _
    rfl
  | succ fuel ih =>
    intro s hP
    obtain ⟨s', hstep, hP'⟩ := c2_step_spin s hP
    rw [gvl_run, if_pos (by rcases hP.2.1 with h | h <;> rw [h] <;> norm_num), hstep]
    exact ih s' hP'

theorem c2_init_spin : c2Spin (initState c2car c2r c2A) := by
  refine ⟨rfl, Or.inl rfl, ?_⟩
  show (v_apex c2car c2r c2A).1 = fun _ => 0
  have hcap : apexSpeedCeil c2car 100 = 0 := by
    rw [apexSpeedCeil, apexLim]
    rw [if_neg (show ¬(c2car.hybrid = 1) by norm_num [c2car])]
    rw [show (v_lim_electric c2car (Real.sqrt (c2car.mu * g * 100))
        (Real.sqrt (c2car.mu * g * 100) / (c2car.wheel_radius * 0.0254 * 2 * Real.pi)
          * 60)).2 = 0 by
      rw [v_lim_electric]
      norm_num [c2car]]
    norm_num
  funext j
  rw [(v_apex_apply c2car c2r c2A j).1]
  split_ifs with hj
  · show min (Real.sqrt (c2car.mu * g * 100)) (apexSpeedCeil c2car 100) = 0
    rw [hcap]
    exact min_eq_right (Real.sqrt_nonneg _)
  · rfl

/-- C2 (counterexample): on the `c2car` input the forward pass loops
forever — `get_velocity_list` returns a value for *no* amount of fuel.
The source has no iteration cap and no `ConvergenceError` (no such name
exists anywhere in it): the claim that the alternation always terminates
behind a cap is false. -/
theorem c2_counterexample :
    ¬ ∃ fuel, (get_velocity_list c2car 20 c2r c2A fuel).isSome = true := by
  rintro ⟨fuel, hf⟩
  rw [get_velocity_list, c2_run_spin fuel _ c2_init_spin] at hf
  simp at hf

end LapSim
